import Mathlib

/-!
Verification of the S52/S57 chart renderer core (files S52GL.c, S57data.c).

The development shallowly embeds the data model and the operations of the
renderer: C doubles are modelled as exact rationals (or reals where the code
takes square roots and trigonometric functions), C structs as Lean structures,
static module state as explicitly threaded values, and the logging /
`g_assert` side effects as Boolean result fields.  Unless noted otherwise in
a doc comment, each definition is a direct transcription of the function of
the same name in the C source.
-/

namespace S52

/-! ## S57 geometry/feature data model (S57data.c) -/

/-- The string OGR uses to tag an omitted ("unknown") mandatory attribute
value: MAXINT-6, `EMPTY_NUMBER_MARKER` in S57data.c. -/
def EMPTY_NUMBER_MARKER : String := "2147483641"

/-- A C `double` as stored in feature extents: either a finite value
(modelled exactly as a rational) or one of the two IEEE infinities
(S57data.c uses `UNKNOWN (1.0/0.0)` as an infinity marker). -/
inductive CDouble where
  | fin (q : ℚ)
  | posInf
  | negInf
  deriving DecidableEq

/-- C `isinf`: true exactly on the two infinities. -/
def CDouble.isinf : CDouble → Bool
  | .fin _  => false
  | .posInf => true
  | .negInf => true

/-- `struct _rect` of S57data.c: extent W (x1), S (y1), E (x2), N (y2).
The C comment reads "assume: extent canonical: x1 < x2, y1 < y2"; the
structure itself does not enforce it. -/
structure SRect where
  x1 : CDouble
  y1 : CDouble
  x2 : CDouble
  y2 : CDouble
  deriving DecidableEq

/-- The slice of `struct _S57_geo` (S57data.c) that the verified operations
touch.  `touch` models the C `union { TOPMAR; LIGHTS; DEPARE; DEPVAL }`:
all four role pointers alias one storage slot; a pointer is modelled as an
optional numeric object id (`none` = NULL).  `attribs` models the GData
key/value dictionary, `centroid`/`centroidIdx` the centroid cache and its
iteration cursor (`none` = the GArray pointer is NULL, i.e. never
allocated). -/
structure S57_geo where
  name        : String
  attribs     : List (String × String)
  touch       : Option Nat
  rect        : SRect
  centroid    : Option (List (ℚ × ℚ))
  centroidIdx : Nat
  deriving DecidableEq

/-- Lookup of an attribute value in the GData dictionary
(`g_datalist_id_get_data`). -/
def lookupAtt (attribs : List (String × String)) (attName : String) : Option String :=
  (attribs.find? (fun kv => kv.1 == attName)).map Prod.snd

/-- `S57_getAttVal` (S57data.c:961).  Returns the attribute value, or
`none` when the key is absent or the stored value is `EMPTY_NUMBER_MARKER`.
The empty-value branch is guarded by the C `static int silent` flag (threaded
here explicitly, second component of the result): the branch both prints a
one-shot note and returns NULL, so it fires only while `silent` is false. -/
def S57_getAttVal (silent : Bool) (geo : S57_geo) (attName : String) :
    Option String × Bool :=
  match lookupAtt geo.attribs attName with
  | none => (none, silent)
  | some att =>
    if att = EMPTY_NUMBER_MARKER then (none, silent)
    else if silent = false ∧ att.length = 0 then (none, true)
    else (some att, silent)

/-- `S57_setTouchTOPMAR` (S57data.c:1016): unconditional store of the union
slot, always returns TRUE. -/
def S57_setTouchTOPMAR (geo : S57_geo) (t : Option Nat) : Bool × S57_geo :=
  (true, { geo with touch := t })

/-- `S57_setTouchLIGHTS` (S57data.c:1032): same body as the TOPMAR setter
(the four role pointers are one C union). -/
def S57_setTouchLIGHTS (geo : S57_geo) (t : Option Nat) : Bool × S57_geo :=
  (true, { geo with touch := t })

/-- `S57_setTouchDEPARE` (S57data.c): unconditional store, returns TRUE. -/
def S57_setTouchDEPARE (geo : S57_geo) (t : Option Nat) : Bool × S57_geo :=
  (true, { geo with touch := t })

/-- `S57_setTouchDEPVAL` (S57data.c): unconditional store, returns TRUE. -/
def S57_setTouchDEPVAL (geo : S57_geo) (t : Option Nat) : Bool × S57_geo :=
  (true, { geo with touch := t })

/-- `S57_getTouchTOPMAR` and friends: read the single union slot. -/
def S57_getTouch (geo : S57_geo) : Option Nat :=
  geo.touch

/-- `S57_setExt` (S57data.c:840).  Stores the four coordinates
unconditionally and returns TRUE; the only check in the body is the debug
`isinf(x1) && isinf(x2)` which merely prints and raises `g_assert(0)`
(third result component) before the store proceeds. -/
def S57_setExt (geo : S57_geo) (x1 y1 x2 y2 : CDouble) :
    Bool × S57_geo × Bool :=
  (true, { geo with rect := ⟨x1, y1, x2, y2⟩ }, x1.isinf && x2.isinf)

/-- `S57_getExt` (S57data.c:877): returns the stored W, S, E, N. -/
def S57_getExt (geo : S57_geo) : CDouble × CDouble × CDouble × CDouble :=
  (geo.rect.x1, geo.rect.y1, geo.rect.x2, geo.rect.y2)

/-- `S57_newCentroid` (S57data.c:1545): allocate a fresh empty list or reset
the existing one, and rewind the cursor. -/
def S57_newCentroid (geo : S57_geo) : S57_geo :=
  { geo with centroid := some [], centroidIdx := 0 }

/-- `S57_addCentroid` (S57data.c:1561): append one point.  The C code calls
`g_array_append_val` without a NULL check; appending to a NULL array is
undefined, so the `none` case (never reached through the API) is modelled as
a no-op. -/
def S57_addCentroid (geo : S57_geo) (x y : ℚ) : S57_geo :=
  match geo.centroid with
  | some l => { geo with centroid := some (l ++ [(x, y)]) }
  | none   => geo

/-- `S57_getNextCentroid` (S57data.c:1571): yield the point under the cursor
and advance, or return FALSE (here `none`) when the list is NULL or the
cursor has passed the end. -/
def S57_getNextCentroid (geo : S57_geo) : Option (ℚ × ℚ) × S57_geo :=
  match geo.centroid with
  | none => (none, geo)
  | some l =>
    if hlt : geo.centroidIdx < l.length then
      (some (l.get ⟨geo.centroidIdx, hlt⟩),
       { geo with centroidIdx := geo.centroidIdx + 1 })
    else (none, geo)

/-- `S57_hasCentroid` (S57data.c:1589): allocate via `S57_newCentroid` when
the list is NULL, otherwise rewind the cursor; then report whether the list
is non-empty. -/
def S57_hasCentroid (geo : S57_geo) : Bool × S57_geo :=
  let geo' :=
    match geo.centroid with
    | none   => S57_newCentroid geo
    | some _ => { geo with centroidIdx := 0 }
  match geo'.centroid with
  | none   => (false, geo')
  | some l => (decide (l.length ≠ 0), geo')

/-- Repeated application of `S57_getNextCentroid`, keeping only the state. -/
def nextCentroidIter (geo : S57_geo) : Nat → S57_geo
  | 0     => geo
  | n + 1 => (S57_getNextCentroid (nextCentroidIter geo n)).snd

/-! ## Mercator projection setup (S57data.c) -/

/-- Text of the PROJ4 definition built by `S57_setMercPrj` from its template
`"+proj=merc +lat_ts=%.6f +lon_0=%.6f +ellps=WGS84 +datum=WGS84 +unit=m"`
(the `%.6f` printf formatting of the two doubles is abstracted by
`toString`). -/
def mercPjDef (lat lon : ℚ) : String :=
  "+proj=merc +lat_ts=" ++ toString lat ++ " +lon_0=" ++ toString lon ++
    " +ellps=WGS84 +datum=WGS84 +unit=m"

/-- `S57_setMercPrj` (S57data.c:274).  State is the static `_pjstr`
(`none` = NULL).  If the projection string is already set the call prints a
warning and returns FALSE without touching it (third result component =
warning issued).  Otherwise the string is stored and the external
`pj_init_plus` (abstracted by `pjInitOk`) decides the return value; on init
failure the string stays stored. -/
def S57_setMercPrj (pjInitOk : String → Bool) (pjstr : Option String)
    (lat lon : ℚ) : Bool × Option String × Bool :=
  match pjstr with
  | some s => (false, some s, true)
  | none =>
    let s := mercPjDef lat lon
    if pjInitOk s then (true, some s, false) else (false, some s, false)

/-! ## Primitive buffer (S57data.c) -/

/-- `_QUADRIC_TRANSLATE` (S52GL.c:1095): the sentinel draw mode 0x000A whose
single vertex is consumed as a modelview translation. -/
def QUADRIC_TRANSLATE : Nat := 10

/-- `struct _prim` (S57data.c): one glDrawArrays span.  `count` is `none`
between `S57_begPrim` and `S57_endPrim` (uninitialized in C). -/
structure PrimSpan where
  mode  : Nat
  first : Nat
  count : Option Int
  deriving DecidableEq

/-- `struct _S57_prim` (S57data.c): span list plus packed vertex array. -/
structure S57_prim where
  list   : List PrimSpan
  vertex : List (ℚ × ℚ × ℚ)
  deriving DecidableEq

/-- `S57_initPrim` on a NULL pointer: fresh empty holder (reuse of an
existing holder also resets both arrays to size 0). -/
def S57_initPrim : S57_prim := ⟨[], []⟩

/-- `S57_begPrim` (S57data.c:723): append a span whose `first` is the
current vertex count; `count` is left uninitialized. -/
def S57_begPrim (prim : S57_prim) (mode : Nat) : S57_prim :=
  { prim with list := prim.list ++ [⟨mode, prim.vertex.length, none⟩] }

/-- `S57_endPrim` (S57data.c:737): set the last span's `count` to the number
of vertices appended since its `begPrim`.  With an empty span list the C
index `len-1` underflows (undefined); modelled as a no-op. -/
def S57_endPrim (prim : S57_prim) : S57_prim :=
  match prim.list.getLast? with
  | none   => prim
  | some p =>
    { prim with
      list := prim.list.dropLast ++
        [{ p with count := some ((prim.vertex.length : Int) - (p.first : Int)) }] }

/-- `S57_addPrimVertex` (S57data.c:758): append one xyz triple. -/
def S57_addPrimVertex (prim : S57_prim) (v : ℚ × ℚ × ℚ) : S57_prim :=
  { prim with vertex := prim.vertex ++ [v] }

/-- One call against the primitive-buffer API. -/
inductive PrimOp where
  | beg (mode : Nat)
  | add (v : ℚ × ℚ × ℚ)
  | fin
  deriving DecidableEq

/-- Interpret one API call. -/
def runPrimOp (prim : S57_prim) : PrimOp → S57_prim
  | .beg m => S57_begPrim prim m
  | .add v => S57_addPrimVertex prim v
  | .fin   => S57_endPrim prim

/-- Interpret a call sequence left to right. -/
def runPrimOps (prim : S57_prim) (ops : List PrimOp) : S57_prim :=
  ops.foldl runPrimOp prim

/-- Properly bracketed call sequences: stray vertex appends may occur
outside spans, and every `begPrim` is closed by a matching `endPrim` with
only vertex appends in between. -/
inductive Bracketed : List PrimOp → Prop
  | nil : Bracketed []
  | outside (v : ℚ × ℚ × ℚ) (ops : List PrimOp) :
      Bracketed ops → Bracketed (PrimOp.add v :: ops)
  | block (m : Nat) (vs : List (ℚ × ℚ × ℚ)) (ops : List PrimOp) :
      Bracketed ops →
      Bracketed (PrimOp.beg m :: (vs.map PrimOp.add ++ (PrimOp.fin :: ops)))

/-- Sum of the recorded span counts (an uninitialized count reads as 0). -/
def spanCountSum (prim : S57_prim) : Int :=
  (prim.list.map (fun p => p.count.getD 0)).sum

/-- Number of spans whose mode is the TRANSLATE sentinel. -/
def numTranslateSpans (prim : S57_prim) : Nat :=
  (prim.list.filter (fun p => p.mode == QUADRIC_TRANSLATE)).length

/-! ## Frame lifecycle and cursor-pick cycle (S52GL.c) -/

/-- `S52_GL_cycle` (declared in the S52GL header): the frame state machine.
The values referenced by S52GL.c are NONE, DRAW, LAST and PICK. -/
inductive S52_GL_cycle where
  | NONE
  | DRAW
  | LAST
  | PICK
  deriving DecidableEq

/-- The static S52GL.c state the lifecycle functions read and write:
`_crnt_GL_cycle`, the `_GL_BEGIN` debug flag, the four 8-bit components of
the pick color index `_cIdx`, and the `_objPick` array (object ids). -/
structure GLState where
  crnt_GL_cycle : S52_GL_cycle
  GL_BEGIN      : Bool
  cIdxR         : Nat
  cIdxG         : Nat
  cIdxB         : Nat
  cIdxA         : Nat
  objPick       : List Nat
  deriving DecidableEq

/-- Result of `S52_GL_begin`: C return value, new static state, whether the
"S52_GL_cycle out of sync" warning (with its `g_assert(0)`) fired, and
whether the `CHECK_GL_END` assertion fired. -/
structure BeginResult where
  ret : Bool
  st  : GLState
  warnedOutOfSync     : Bool
  assertAlreadyInside : Bool
  deriving DecidableEq

/-- `S52_GL_begin` (S52GL.c:8887).  `CHECK_GL_END` warns if a begin is
already open; the out-of-sync test warns (and `g_assert(0)`s) when the
current cycle is not NONE — and then the function proceeds regardless:
it overwrites `_crnt_GL_cycle` with the requested cycle, resets the pick
color index and pick list when entering PICK, and returns TRUE (its only
return statement).  GL context calls are elided. -/
def S52_GL_begin (cycle : S52_GL_cycle) (st : GLState) : BeginResult :=
  let assertAlready := st.GL_BEGIN
  let st1 : GLState := { st with GL_BEGIN := true }
  let warned := decide (st1.crnt_GL_cycle ≠ S52_GL_cycle.NONE)
  let st2 : GLState := { st1 with crnt_GL_cycle := cycle }
  let st3 : GLState :=
    if st2.crnt_GL_cycle = S52_GL_cycle.PICK then
      { st2 with cIdxR := 0, cIdxG := 0, cIdxB := 0, cIdxA := 0, objPick := [] }
    else st2
  ⟨true, st3, warned, assertAlready⟩

/-- Result of `S52_GL_end`. -/
structure EndResult where
  ret : Bool
  st  : GLState
  warnedOutOfSync : Bool
  assertNotInside : Bool
  deriving DecidableEq

/-- `S52_GL_end` (S52GL.c:9200): warns when the argument differs from the
current cycle, then resets the cycle to NONE and clears `_GL_BEGIN`;
always returns TRUE. -/
def S52_GL_end (cycle : S52_GL_cycle) (st : GLState) : EndResult :=
  let assertNot := !st.GL_BEGIN
  let warned := decide (cycle ≠ st.crnt_GL_cycle)
  let st1 : GLState := { st with crnt_GL_cycle := cycle }
  let st2 : GLState :=
    { st1 with crnt_GL_cycle := S52_GL_cycle.NONE, GL_BEGIN := false }
  ⟨true, st2, warned, assertNot⟩

/-- The color-index bookkeeping of `S52_GL_draw` (S52GL.c:8609): in a PICK
cycle every drawn object first increments the 8-bit `_cIdx.color.r`
(a GLubyte, so the increment wraps at 256).  Command-word rendering and the
glReadPixels hit test are elided — the claim under verification concerns the
index assignment. -/
def S52_GL_draw_pickIdx (st : GLState) : GLState :=
  if st.crnt_GL_cycle = S52_GL_cycle.PICK then
    { st with cIdxR := (st.cIdxR + 1) % 256 }
  else st

/-- State after drawing `k` successive objects. -/
def drawNPick (st : GLState) : Nat → GLState
  | 0     => st
  | n + 1 => S52_GL_draw_pickIdx (drawNPick st n)

/-- The color index held by `_cIdx.color.r` while the `k`-th object
(1-based) of a PICK cycle started from `st0` is being drawn. -/
def pickColorIdxOfNth (st0 : GLState) (k : Nat) : Nat :=
  (drawNPick (S52_GL_begin S52_GL_cycle.PICK st0).st k).cIdxR

/-! ## Cohen-Sutherland clipping (S52GL.c:5297) -/

/-- The clip window `_pmin`/`_pmax` (projected view extent). -/
structure ClipRect (K : Type) where
  pminu : K
  pminv : K
  pmaxu : K
  pmaxv : K

/-- A Cohen-Sutherland outcode.  The C bitmask (`_RIGHT`=8, `_TOP`=4,
`_LEFT`=2, `_BOTTOM`=1, `_CENTER`=0) is modelled as four Booleans. -/
structure OutCode where
  right  : Bool
  top    : Bool
  left   : Bool
  bottom : Bool
  deriving DecidableEq

/-- The all-clear outcode `_CENTER`. -/
def OutCode.zero : OutCode := ⟨false, false, false, false⟩

/-- Bitwise OR of two outcodes. -/
def OutCode.lor (a b : OutCode) : OutCode :=
  ⟨a.right || b.right, a.top || b.top, a.left || b.left, a.bottom || b.bottom⟩

/-- Bitwise AND of two outcodes. -/
def OutCode.land (a b : OutCode) : OutCode :=
  ⟨a.right && b.right, a.top && b.top, a.left && b.left, a.bottom && b.bottom⟩

variable {K : Type} [LinearOrderedField K]

/-- `_computeOutCode` (S52GL.c:5297).  The vertical bits come from one
if/else-if chain (BOTTOM is only tested when TOP fails), the horizontal bits
from another. -/
def _computeOutCode (r : ClipRect K) (x y : K) : OutCode :=
  { top    := decide (y > r.pmaxv)
    bottom := decide (¬y > r.pmaxv ∧ y < r.pminv)
    right  := decide (x > r.pmaxu)
    left   := decide (¬x > r.pmaxu ∧ x < r.pminu) }

/-- Outcome of one pass of the `_clipToView` do-while body: either the loop
is done (accept or reject) or it continues with updated coordinates. -/
inductive ClipStep (K : Type) where
  | done (accept : Bool) (x1 y1 x2 y2 : K)
  | more (x1 y1 x2 y2 : K)

/-- One pass of the `_clipToView` loop body (S52GL.c:5312): trivial accept
when the OR of the outcodes is zero, trivial reject when the AND is nonzero,
otherwise clip the endpoint picked by `outcode1 ? outcode1 : outcode2`
against its highest-priority violated edge (TOP, BOTTOM, RIGHT, LEFT in that
order) and replace that endpoint by the intersection point. -/
def _clipStep (r : ClipRect K) (x1 y1 x2 y2 : K) : ClipStep K :=
  let outcode1 := _computeOutCode r x1 y1
  let outcode2 := _computeOutCode r x2 y2
  if outcode1.lor outcode2 = OutCode.zero then
    ClipStep.done true x1 y1 x2 y2
  else if outcode1.land outcode2 ≠ OutCode.zero then
    ClipStep.done false x1 y1 x2 y2
  else
    let outcode := if outcode1 ≠ OutCode.zero then outcode1 else outcode2
    let xy : K × K :=
      if outcode.top then
        (x1 + (x2 - x1) * (r.pmaxv - y1) / (y2 - y1), r.pmaxv)
      else if outcode.bottom then
        (x1 + (x2 - x1) * (r.pminv - y1) / (y2 - y1), r.pminv)
      else if outcode.right then
        (r.pmaxu, y1 + (y2 - y1) * (r.pmaxu - x1) / (x2 - x1))
      else if outcode.left then
        (r.pminu, y1 + (y2 - y1) * (r.pminu - x1) / (x2 - x1))
      else (x1, y1)
    if outcode = outcode1 then ClipStep.more xy.1 xy.2 x2 y2
    else ClipStep.more x1 y1 xy.1 xy.2

/-- The `_clipToView` do-while loop with explicit fuel; `none` means the
fuel ran out (the termination lemmas show fuel 5 always suffices for a
canonical clip window). -/
def _clipLoop (r : ClipRect K) : Nat → K → K → K → K →
    Option (Bool × K × K × K × K)
  | 0, _, _, _, _ => none
  | fuel + 1, x1, y1, x2, y2 =>
    match _clipStep r x1 y1 x2 y2 with
    | ClipStep.done a q1 q2 q3 q4 => some (a, q1, q2, q3, q4)
    | ClipStep.more q1 q2 q3 q4   => _clipLoop r fuel q1 q2 q3 q4

/-- `_clipToView` (S52GL.c:5312): TRUE plus the clipped coordinates when
some part of the segment is inside the view, FALSE otherwise. -/
def _clipToView (r : ClipRect K) (x1 y1 x2 y2 : K) :
    Option (Bool × K × K × K × K) :=
  _clipLoop r 5 x1 y1 x2 y2

/-- The point `(x, y)` is within or on the clip rectangle. -/
def inRect (r : ClipRect K) (x y : K) : Prop :=
  r.pminu ≤ x ∧ x ≤ r.pmaxu ∧ r.pminv ≤ y ∧ y ≤ r.pmaxv

/-- The point `(px, py)` lies on the closed segment from `(x1, y1)` to
`(x2, y2)`. -/
def onSeg (x1 y1 x2 y2 px py : K) : Prop :=
  ∃ t, 0 ≤ t ∧ t ≤ 1 ∧ px = x1 + t * (x2 - x1) ∧ py = y1 + t * (y2 - y1)

/-- Number of directions set in an outcode. -/
def dirCount (c : OutCode) : Nat :=
  c.right.toNat + c.top.toNat + c.left.toNat + c.bottom.toNat

/-- Number of distinct clip-window edges violated by the two endpoints
together: the termination measure of the `_clipToView` loop. -/
def unionDirCount (r : ClipRect K) (x1 y1 x2 y2 : K) : Nat :=
  dirCount ((_computeOutCode r x1 y1).lor (_computeOutCode r x2 y2))

/-! ## Complex-line rendering `_renderLC` (S52GL.c:5390)

The placement geometry uses `sqrt`, `atan2`, `cos` and `sin` of C doubles,
so this part of the embedding lives in `ℝ`. -/

/-- C `atan2(y, x)`: the argument of the complex number `x + iy`. -/
noncomputable def atan2 (y x : ℝ) : ℝ := Complex.arg ⟨x, y⟩

/-- What `_renderLC` produces for one polyline segment: the modelview
translations at which the line-style symbol is drawn (via
translate/rotate/scale and `_glCallList`), in drawing order, and the points
appended to the residual-line buffer `_tessWorkBuf_f`. -/
structure LCSegOut where
  syms : List (ℝ × ℝ)
  rest : List (ℝ × ℝ × ℝ)

/-- The symbol-placement loop of `_renderLC`: `n` iterations, drawing at
`(x1, y1)` plus the accumulated offset, which then advances by the symbol
vector `(vx, vy)`. -/
def lcSymbols (x1 y1 vx vy : ℝ) : Nat → ℝ → ℝ → List (ℝ × ℝ)
  | 0, _, _ => []
  | n + 1, ox, oy => (x1 + ox, y1 + oy) :: lcSymbols x1 y1 vx vy n (ox + vx) (oy + vy)

/-- `seglen_wrld`: the C
`sqrt(pow((x1-off_x)-(x2-off_x),2) + pow((y1-off_y)-(y2-off_y),2))`;
the `off_x`/`off_y` shifts cancel exactly in real arithmetic and are
dropped. -/
noncomputable def lcSeglen (cx1 cy1 cx2 cy2 : ℝ) : ℝ :=
  Real.sqrt ((cx1 - cx2) ^ 2 + (cy1 - cy2) ^ 2)

/-- `symlen_wrld_x`: the x component of one symbol step along the segment
(`cos(segang) * symlen_wrld`). -/
noncomputable def lcSymVecX (cx1 cy1 cx2 cy2 symlen_wrld : ℝ) : ℝ :=
  Real.cos (atan2 (cy2 - cy1) (cx2 - cx1)) * symlen_wrld

/-- `symlen_wrld_y`: the y component of one symbol step along the segment
(`sin(segang) * symlen_wrld`). -/
noncomputable def lcSymVecY (cx1 cy1 cx2 cy2 symlen_wrld : ℝ) : ℝ :=
  Real.sin (atan2 (cy2 - cy1) (cx2 - cx1)) * symlen_wrld

/-- The per-segment body of the `_renderLC` loop (S52GL.c:5456, non-leglin
path): clip the segment to the view (skip it when rejected), skip it when
both endpoint depths are negative (overlap suppression), then place
`(int)(seglen_wrld / symlen_wrld)` symbol instances one symbol length apart
and append the leftover part and the segment end to the residual buffer.
The C `(int)` cast truncates toward zero and the subsequent
`for (j=0; j<nsym; ...)` loop runs `max(nsym,0)` times, which is
`Int.toNat` of the floor. -/
noncomputable def renderLCseg (r : ClipRect ℝ) (symlen_wrld : ℝ)
    (x1 y1 z1 x2 y2 z2 : ℝ) : LCSegOut :=
  match _clipToView r x1 y1 x2 y2 with
  | none => ⟨[], []⟩
  | some (false, _, _, _, _) => ⟨[], []⟩
  | some (true, cx1, cy1, cx2, cy2) =>
    if z1 < 0 ∧ z2 < 0 then ⟨[], []⟩
    else
      let nsym : Nat :=
        (⌊lcSeglen cx1 cy1 cx2 cy2 / symlen_wrld⌋).toNat
      ⟨lcSymbols cx1 cy1 (lcSymVecX cx1 cy1 cx2 cy2 symlen_wrld)
          (lcSymVecY cx1 cy1 cx2 cy2 symlen_wrld) nsym 0 0,
       [(cx1 + nsym * lcSymVecX cx1 cy1 cx2 cy2 symlen_wrld,
         cy1 + nsym * lcSymVecY cx1 cy1 cx2 cy2 symlen_wrld, 0),
        (cx2, cy2, 0)]⟩

/-- The one `_DrawArrays_LINES` call `_renderLC` issues after its segment
loop, on the whole residual buffer. -/
inductive LinesDraw where
  | drawArraysLines (pts : List (ℝ × ℝ × ℝ))

/-- `_renderLC` over a projected polyline (list of xyz vertices): process
the consecutive segments in order, then draw the accumulated residual
buffer in a single `LINES` batch.  Per-object state (colors, leglin arc
shortening, GL state) is elided; the polyline is taken as already
projected. -/
noncomputable def _renderLC (r : ClipRect ℝ) (symlen_wrld : ℝ)
    (pts : List (ℝ × ℝ × ℝ)) : List (List (ℝ × ℝ)) × List LinesDraw :=
  let outs := (pts.zip pts.tail).map fun pq =>
    renderLCseg r symlen_wrld pq.1.1 pq.1.2.1 pq.1.2.2 pq.2.1 pq.2.2.1 pq.2.2.2
  (outs.map LCSegOut.syms,
   [LinesDraw.drawArraysLines (outs.map LCSegOut.rest).flatten])

/-! ## Theorems -/

/-- Claim C1 counterexample: with a DRAW cycle already in progress
(`_crnt_GL_cycle = DRAW`, `_GL_BEGIN` set), `S52_GL_begin(LAST)` does not
fail and does not leave the cycle state unchanged: it returns TRUE and
overwrites the state with LAST (the out-of-sync warning fires, but only as
a log message plus debug assertion). -/
theorem begin_out_of_sync_proceeds :
    (S52_GL_begin S52_GL_cycle.LAST
      ⟨S52_GL_cycle.DRAW, true, 0, 0, 0, 0, []⟩).ret = true ∧
    (S52_GL_begin S52_GL_cycle.LAST
      ⟨S52_GL_cycle.DRAW, true, 0, 0, 0, 0, []⟩).st.crnt_GL_cycle =
        S52_GL_cycle.LAST ∧
    (S52_GL_begin S52_GL_cycle.LAST
      ⟨S52_GL_cycle.DRAW, true, 0, 0, 0, 0, []⟩).warnedOutOfSync = true := by
  decide

/-- Claim C1 (amended): `S52_GL_begin(cycle)` always returns TRUE and always
overwrites the frame state with the requested cycle; when a cycle is already
in progress (state not NONE) it merely reports the CycleOutOfSync condition
as a warning plus debug assertion before proceeding. -/
theorem S52_GL_begin_semantics (cycle : S52_GL_cycle) (st : GLState) :
    (S52_GL_begin cycle st).ret = true ∧
    (S52_GL_begin cycle st).st.crnt_GL_cycle = cycle ∧
    ((S52_GL_begin cycle st).warnedOutOfSync = true ↔
      st.crnt_GL_cycle ≠ S52_GL_cycle.NONE) := by
  refine ⟨rfl, ?_, ?_⟩
  · simp only [S52_GL_begin]
    split <;> simp
  · simp [S52_GL_begin]

/-- Claim C4 (code bug): the empty-string-is-absent rule of `S57_getAttVal`
holds only while the one-shot "attribute has no value" note has not yet been
issued.  On a feature holding attribute `catlam` with the empty string, the
first lookup returns absent and raises the `silent` latch, and the second
lookup then returns the empty string as a present value. -/
theorem getAttVal_empty_one_shot :
    S57_getAttVal false
      ⟨"LIGHTS", [("catlam", "")], none,
        ⟨CDouble.fin 0, CDouble.fin 0, CDouble.fin 0, CDouble.fin 0⟩,
        none, 0⟩ "catlam" = (none, true) ∧
    S57_getAttVal true
      ⟨"LIGHTS", [("catlam", "")], none,
        ⟨CDouble.fin 0, CDouble.fin 0, CDouble.fin 0, CDouble.fin 0⟩,
        none, 0⟩ "catlam" = (some "", true) := by
  decide

/-- Claim C5 counterexample: on a feature whose TOPMAR touch is already set
to object 1, setting it to the different object 2 does not return an error
and does not leave the stored touch unchanged: the call returns TRUE and the
slot now holds object 2. -/
theorem setTouch_overwrite_succeeds :
    (S57_setTouchTOPMAR
      (S57_setTouchTOPMAR
        ⟨"BOYLAT", [], none,
          ⟨CDouble.fin 0, CDouble.fin 0, CDouble.fin 0, CDouble.fin 0⟩,
          none, 0⟩ (some 1)).snd (some 2)).fst = true ∧
    (S57_setTouchTOPMAR
      (S57_setTouchTOPMAR
        ⟨"BOYLAT", [], none,
          ⟨CDouble.fin 0, CDouble.fin 0, CDouble.fin 0, CDouble.fin 0⟩,
          none, 0⟩ (some 1)).snd (some 2)).snd.touch = some 2 := by
  decide

/-- Claim C5 (amended): every touch setter stores its argument
unconditionally and returns TRUE (the four role setters have identical
bodies writing the one union slot); in particular setting the same value
twice is idempotent, and overwriting an already-set touch also succeeds. -/
theorem setTouch_always_overwrites (geo : S57_geo) (t : Option Nat) :
    S57_setTouchTOPMAR geo t = (true, { geo with touch := t }) ∧
    S57_setTouchLIGHTS geo t = (true, { geo with touch := t }) ∧
    S57_setTouchDEPARE geo t = (true, { geo with touch := t }) ∧
    S57_setTouchDEPVAL geo t = (true, { geo with touch := t }) ∧
    S57_setTouchTOPMAR (S57_setTouchTOPMAR geo t).snd t =
      S57_setTouchTOPMAR geo t ∧
    S57_getTouch (S57_setTouchTOPMAR geo t).snd = t :=
  ⟨rfl, rfl, rfl, rfl, rfl, rfl⟩

/-- Claim C7: once `S57_setMercPrj` has succeeded, every later call returns
FALSE with the "allready set" warning and leaves the stored projection
definition untouched. -/
theorem setMercPrj_only_once (pjInitOk : String → Bool) (lat0 lon0 : ℚ)
    (st : Option String)
    (hfirst : S57_setMercPrj pjInitOk none lat0 lon0 = (true, st, false)) :
    ∀ lat lon : ℚ, S57_setMercPrj pjInitOk st lat lon = (false, st, true) := by
  intro lat lon
  simp only [S57_setMercPrj] at hfirst
  by_cases h : pjInitOk (mercPjDef lat0 lon0)
  · rw [if_pos h] at hfirst
    have hst : st = some (mercPjDef lat0 lon0) := by
      have := congrArg (fun p => p.2.1) hfirst
      simpa using this.symm
    subst hst
    rfl
  · rw [if_neg h] at hfirst
    simp at hfirst

/-- Claim C7 witness: a successful first origin setup at (0, 0), after which
an attempt at (1, 2) fails and leaves the stored definition unchanged. -/
theorem setMercPrj_only_once_witness :
    S57_setMercPrj (fun _ => true) (some (mercPjDef 0 0)) 1 2 =
      (false, some (mercPjDef 0 0), true) :=
  setMercPrj_only_once (fun _ => true) 0 0 (some (mercPjDef 0 0)) rfl 1 2

/-- Claim C8 counterexample: `S57_setExt` with W = 1 greater than E = 0
(a non-canonical extent) does not fail: it returns TRUE and stores the
invalid extent. -/
theorem setExt_stores_noncanonical :
    (S57_setExt
      ⟨"DEPARE", [], none,
        ⟨CDouble.fin 0, CDouble.fin 0, CDouble.fin 0, CDouble.fin 0⟩,
        none, 0⟩
      (CDouble.fin 1) (CDouble.fin 0) (CDouble.fin 0) (CDouble.fin 1)).fst
        = true ∧
    (S57_setExt
      ⟨"DEPARE", [], none,
        ⟨CDouble.fin 0, CDouble.fin 0, CDouble.fin 0, CDouble.fin 0⟩,
        none, 0⟩
      (CDouble.fin 1) (CDouble.fin 0) (CDouble.fin 0) (CDouble.fin 1)).snd.fst.rect
        = ⟨CDouble.fin 1, CDouble.fin 0, CDouble.fin 0, CDouble.fin 1⟩ := by
  decide

/-- Reading the centroid cursor when it is within the cached list yields the
pointed-to centroid and advances the cursor. -/
theorem nextCentroid_lt (geo : S57_geo) (l : List (ℚ × ℚ))
    (h : geo.centroid = some l) (hlt : geo.centroidIdx < l.length) :
    S57_getNextCentroid geo =
      (some (l.get ⟨geo.centroidIdx, hlt⟩),
       { geo with centroidIdx := geo.centroidIdx + 1 }) := by
  simp [S57_getNextCentroid, h, hlt]

/-- Reading past the end of the cached list returns FALSE and leaves the
state unchanged. -/
theorem nextCentroid_ge (geo : S57_geo) (l : List (ℚ × ℚ))
    (h : geo.centroid = some l) (hge : l.length ≤ geo.centroidIdx) :
    S57_getNextCentroid geo = (none, geo) := by
  simp [S57_getNextCentroid, h, Nat.not_lt.mpr hge]

/-- While within bounds, `k` cursor reads advance the cursor by `k`. -/
theorem nextCentroidIter_within (geo : S57_geo) (l : List (ℚ × ℚ))
    (h : geo.centroid = some l) :
    ∀ k, geo.centroidIdx + k ≤ l.length →
      nextCentroidIter geo k = { geo with centroidIdx := geo.centroidIdx + k } := by
  intro k
  induction k with
  | zero => intro _; cases geo; simp [nextCentroidIter]
  | succ n ih =>
    intro hk
    have hn : geo.centroidIdx + n ≤ l.length := by omega
    have hlt : geo.centroidIdx + n < l.length := by omega
    have hstep := nextCentroid_lt { geo with centroidIdx := geo.centroidIdx + n }
      l h (by simpa using hlt)
    simp only [nextCentroidIter, ih hn, hstep]
    have harith : geo.centroidIdx + n + 1 = geo.centroidIdx + (n + 1) := by omega
    rw [harith]

/-- Once the cursor is at or past the end, further reads change nothing. -/
theorem nextCentroidIter_done (geo : S57_geo) (l : List (ℚ × ℚ))
    (h : geo.centroid = some l) (hge : l.length ≤ geo.centroidIdx) :
    ∀ k, nextCentroidIter geo k = geo := by
  intro k
  induction k with
  | zero => rfl
  | succ n ih => simp only [nextCentroidIter, ih, nextCentroid_ge geo l h hge]

/-- Iterating cursor reads composes additively. -/
theorem nextCentroidIter_add (geo : S57_geo) (a : Nat) :
    ∀ b, nextCentroidIter geo (a + b) =
      nextCentroidIter (nextCentroidIter geo a) b := by
  intro b
  induction b with
  | zero => rfl
  | succ n ih =>
    have h1 : a + (n + 1) = (a + n) + 1 := by omega
    rw [h1]
    show (S57_getNextCentroid (nextCentroidIter geo (a + n))).snd = _
    rw [ih]
    rfl

/-- From a rewound cursor, the result of the `k`-th `S57_getNextCentroid`
call is the `k`-th cached centroid while one exists, and FALSE afterwards. -/
theorem nextCentroid_kth (geo : S57_geo) (l : List (ℚ × ℚ))
    (h : geo.centroid = some l) (h0 : geo.centroidIdx = 0) (k : Nat) :
    (S57_getNextCentroid (nextCentroidIter geo k)).fst =
      if hk : k < l.length then some (l.get ⟨k, hk⟩) else none := by
  by_cases hk : k < l.length
  · have hiter := nextCentroidIter_within geo l h k (by omega)
    rw [hiter]
    rw [nextCentroid_lt { geo with centroidIdx := geo.centroidIdx + k } l h
      (by simpa [h0] using hk)]
    simp [hk, h0]
  · push_neg at hk
    have hlen : nextCentroidIter geo l.length =
        { geo with centroidIdx := geo.centroidIdx + l.length } :=
      nextCentroidIter_within geo l h l.length (by omega)
    have hsplit : nextCentroidIter geo k =
        nextCentroidIter (nextCentroidIter geo l.length) (k - l.length) := by
      rw [← nextCentroidIter_add]
      congr 1
      omega
    have hge : l.length ≤
        ({ geo with centroidIdx := geo.centroidIdx + l.length } :
          S57_geo).centroidIdx := by
      simp
    rw [hsplit, hlen,
      nextCentroidIter_done { geo with centroidIdx := geo.centroidIdx + l.length }
        l h hge (k - l.length),
      nextCentroid_ge { geo with centroidIdx := geo.centroidIdx + l.length }
        l h hge]
    rw [dif_neg (by omega)]

/-- Value of `S57_hasCentroid` on a feature with no centroid cache. -/
theorem hasCentroid_none (geo : S57_geo) (hc : geo.centroid = none) :
    S57_hasCentroid geo =
      (false, { geo with centroid := some [], centroidIdx := 0 }) := by
  simp [S57_hasCentroid, hc, S57_newCentroid]

/-- Value of `S57_hasCentroid` on a feature with an allocated cache. -/
theorem hasCentroid_some (geo : S57_geo) (l : List (ℚ × ℚ))
    (hc : geo.centroid = some l) :
    S57_hasCentroid geo =
      (decide (l.length ≠ 0), { geo with centroidIdx := 0 }) := by
  simp [S57_hasCentroid, hc]

/-- Claim C10: `S57_hasCentroid` rewinds the cursor (allocating an empty
cache and answering FALSE when none exists, answering TRUE exactly for a
non-empty cache), after which successive `S57_getNextCentroid` calls yield
the cached centroids in insertion order and return FALSE exactly when every
cached centroid has been yielded. -/
theorem hasCentroid_resets_and_iterates (geo : S57_geo) (ret : Bool)
    (geo1 : S57_geo) (h : S57_hasCentroid geo = (ret, geo1)) :
    geo1.centroidIdx = 0 ∧
    (geo.centroid = none → geo1.centroid = some [] ∧ ret = false) ∧
    (∀ l, geo.centroid = some l → geo1.centroid = some l ∧
      (ret = true ↔ l ≠ [])) ∧
    (∀ l, geo1.centroid = some l → ∀ k,
      (S57_getNextCentroid (nextCentroidIter geo1 k)).fst =
        if hk : k < l.length then some (l.get ⟨k, hk⟩) else none) := by
  cases hc : geo.centroid with
  | none =>
    rw [hasCentroid_none geo hc] at h
    injection h with hret hgeo1
    subst hret
    subst hgeo1
    refine ⟨rfl, fun _ => ⟨rfl, rfl⟩,
      fun l hl => absurd hl (by simp), ?_⟩
    intro l hl k
    exact nextCentroid_kth _ l hl rfl k
  | some l0 =>
    rw [hasCentroid_some geo l0 hc] at h
    injection h with hret hgeo1
    subst hret
    subst hgeo1
    refine ⟨rfl, fun hnone => absurd hnone (by simp), ?_, ?_⟩
    · intro l hl
      have hll : l0 = l := Option.some.inj hl
      subst hll
      refine ⟨hc, ?_⟩
      simp [List.length_eq_zero]
    · intro l hl k
      exact nextCentroid_kth _ l hl rfl k

/-- Claim C10 witness: on a feature caching the single centroid (1, 2) with
its cursor left mid-way, `S57_hasCentroid` answers TRUE and rewinds, the
first `S57_getNextCentroid` call yields (1, 2) and the second answers
FALSE. -/
theorem hasCentroid_resets_and_iterates_witness :
    (S57_getNextCentroid (nextCentroidIter
      ⟨"DEPARE", [], none,
        ⟨CDouble.fin 0, CDouble.fin 0, CDouble.fin 0, CDouble.fin 0⟩,
        some [(1, 2)], 0⟩ 0)).fst = some (1, 2) ∧
    (S57_getNextCentroid (nextCentroidIter
      ⟨"DEPARE", [], none,
        ⟨CDouble.fin 0, CDouble.fin 0, CDouble.fin 0, CDouble.fin 0⟩,
        some [(1, 2)], 0⟩ 1)).fst = none := by
  obtain ⟨-, -, -, h4⟩ := hasCentroid_resets_and_iterates
    ⟨"DEPARE", [], none,
      ⟨CDouble.fin 0, CDouble.fin 0, CDouble.fin 0, CDouble.fin 0⟩,
      some [(1, 2)], 5⟩ true
    ⟨"DEPARE", [], none,
      ⟨CDouble.fin 0, CDouble.fin 0, CDouble.fin 0, CDouble.fin 0⟩,
      some [(1, 2)], 0⟩ (by decide)
  exact ⟨by simpa using h4 [(1, 2)] rfl 0, by simpa using h4 [(1, 2)] rfl 1⟩

/-- Running an op list decomposes over list append. -/
theorem runPrimOps_append (st : S57_prim) (xs ys : List PrimOp) :
    runPrimOps st (xs ++ ys) = runPrimOps (runPrimOps st xs) ys :=
  List.foldl_append _ _ _ _

/-- A run of vertex appends only grows the vertex array. -/
theorem runPrimOps_adds (vs : List (ℚ × ℚ × ℚ)) :
    ∀ st : S57_prim, runPrimOps st (vs.map PrimOp.add) =
      { st with vertex := st.vertex ++ vs } := by
  induction vs with
  | nil => intro st; cases st; simp [runPrimOps]
  | cons v vs ih =>
    intro st
    have h1 : runPrimOps st (PrimOp.add v :: vs.map PrimOp.add) =
        runPrimOps (S57_addPrimVertex st v) (vs.map PrimOp.add) := rfl
    rw [List.map_cons, h1, ih]
    simp [S57_addPrimVertex]

/-- Evaluating one bracketed block: it appends one span whose recorded count
is exactly the number of vertices appended inside the block. -/
theorem runPrimOps_block (st : S57_prim) (m : Nat) (vs : List (ℚ × ℚ × ℚ)) :
    runPrimOps st (PrimOp.beg m :: (vs.map PrimOp.add ++ [PrimOp.fin])) =
      { list := st.list ++ [⟨m, st.vertex.length, some (vs.length : Int)⟩],
        vertex := st.vertex ++ vs } := by
  have h1 : runPrimOps st (PrimOp.beg m :: (vs.map PrimOp.add ++ [PrimOp.fin])) =
      runPrimOps (S57_begPrim st m) (vs.map PrimOp.add ++ [PrimOp.fin]) := rfl
  rw [h1, runPrimOps_append, runPrimOps_adds]
  have h2 : runPrimOps
      { S57_begPrim st m with vertex := (S57_begPrim st m).vertex ++ vs }
      [PrimOp.fin] =
      S57_endPrim { S57_begPrim st m with
                    vertex := (S57_begPrim st m).vertex ++ vs } := rfl
  rw [h2]
  simp only [S57_begPrim, S57_endPrim, List.getLast?_concat, List.dropLast_concat]
  have hc : ((st.vertex ++ vs).length : Int) - (st.vertex.length : Int) =
      (vs.length : Int) := by
    push_cast [List.length_append]
    ring
  rw [hc]

/-- Over any properly bracketed op run, the span-count sum grows no faster
than the vertex count. -/
theorem bracketed_delta (ops : List PrimOp) (h : Bracketed ops) :
    ∀ st : S57_prim,
      spanCountSum (runPrimOps st ops) -
          ((runPrimOps st ops).vertex.length : Int) ≤
        spanCountSum st - (st.vertex.length : Int) := by
  induction h with
  | nil => intro st; simp [runPrimOps]
  | outside v ops hb ih =>
    intro st
    have h1 : runPrimOps st (PrimOp.add v :: ops) =
        runPrimOps (S57_addPrimVertex st v) ops := rfl
    rw [h1]
    refine (ih _).trans ?_
    simp only [S57_addPrimVertex, spanCountSum, List.length_append,
      List.length_cons, List.length_nil]
    push_cast
    omega
  | block m vs ops hb ih =>
    intro st
    have hsplit : PrimOp.beg m :: (vs.map PrimOp.add ++ (PrimOp.fin :: ops)) =
        (PrimOp.beg m :: (vs.map PrimOp.add ++ [PrimOp.fin])) ++ ops := by
      simp
    rw [hsplit, runPrimOps_append, runPrimOps_block]
    refine (ih _).trans ?_
    simp [spanCountSum, List.map_append, List.sum_append]

/-- Claim C9 counterexample: the bracketed sequence building one TRANSLATE
span from one vertex already records that vertex in the span's count, so
adding the extra 1 the claim demands for a TRANSLATE span makes the sum
exceed the vertex count. -/
theorem translate_span_counts_vertex_twice :
    ¬ (spanCountSum (runPrimOps S57_initPrim
          [PrimOp.beg QUADRIC_TRANSLATE, PrimOp.add (0, 0, 0), PrimOp.fin]) +
        (numTranslateSpans (runPrimOps S57_initPrim
          [PrimOp.beg QUADRIC_TRANSLATE, PrimOp.add (0, 0, 0), PrimOp.fin]) : Int) ≤
        ((runPrimOps S57_initPrim
          [PrimOp.beg QUADRIC_TRANSLATE, PrimOp.add (0, 0, 0), PrimOp.fin]).vertex.length : Int)) := by
  decide

/-- Claim C9 (amended): for every primitive buffer built by a properly
bracketed sequence of begPrim/addPrimVertex/endPrim calls, the sum of the
span counts is at most the buffer's vertex count.  (A TRANSLATE-mode span is
built from exactly one appended vertex, so its count of 1 already accounts
for the vertex it consumes; no extra term is added.) -/
theorem prim_span_sum_le_vertex_count (ops : List PrimOp)
    (h : Bracketed ops) :
    spanCountSum (runPrimOps S57_initPrim ops) ≤
      ((runPrimOps S57_initPrim ops).vertex.length : Int) := by
  have hd := bracketed_delta ops h S57_initPrim
  have h0 : spanCountSum S57_initPrim = 0 := rfl
  have h1 : ((S57_initPrim.vertex.length : Nat) : Int) = 0 := rfl
  rw [h0, h1] at hd
  omega

/-- Claim C9 witness: a concrete bracketed program (one LINES span of two
vertices) whose span-count sum is bounded by its vertex count. -/
theorem prim_span_sum_le_vertex_count_witness :
    spanCountSum (runPrimOps S57_initPrim
        (PrimOp.beg 1 ::
          (([((0 : ℚ), (0 : ℚ), (0 : ℚ)), (1, 1, 0)].map PrimOp.add) ++
            (PrimOp.fin :: [])))) ≤
      ((runPrimOps S57_initPrim
        (PrimOp.beg 1 ::
          (([((0 : ℚ), (0 : ℚ), (0 : ℚ)), (1, 1, 0)].map PrimOp.add) ++
            (PrimOp.fin :: [])))).vertex.length : Int) :=
  prim_span_sum_le_vertex_count _
    (Bracketed.block 1 [(0, 0, 0), (1, 1, 0)] [] Bracketed.nil)

/-- Drawing objects does not change the cycle state. -/
theorem drawNPick_crnt (st : GLState) :
    ∀ k, (drawNPick st k).crnt_GL_cycle = st.crnt_GL_cycle := by
  intro k
  induction k with
  | zero => rfl
  | succ n ih =>
    show (S52_GL_draw_pickIdx (drawNPick st n)).crnt_GL_cycle = _
    rw [S52_GL_draw_pickIdx]
    split
    · exact ih
    · exact ih

/-- In a PICK cycle started with a zeroed index, the index after `k` draws
is `k` mod 256. -/
theorem drawNPick_cIdxR (st : GLState)
    (hc : st.crnt_GL_cycle = S52_GL_cycle.PICK) (h0 : st.cIdxR = 0) :
    ∀ k, (drawNPick st k).cIdxR = k % 256 := by
  intro k
  induction k with
  | zero => simpa using h0
  | succ n ih =>
    have hcyc : (drawNPick st n).crnt_GL_cycle = S52_GL_cycle.PICK :=
      (drawNPick_crnt st n).trans hc
    show (S52_GL_draw_pickIdx (drawNPick st n)).cIdxR = _
    rw [S52_GL_draw_pickIdx, if_pos hcyc]
    show ((drawNPick st n).cIdxR + 1) % 256 = (n + 1) % 256
    rw [ih]
    omega

/-- The state produced by `S52_GL_begin(PICK)`. -/
theorem begin_PICK_st (st0 : GLState) :
    (S52_GL_begin S52_GL_cycle.PICK st0).st =
      { st0 with GL_BEGIN := true, crnt_GL_cycle := S52_GL_cycle.PICK,
                 cIdxR := 0, cIdxG := 0, cIdxB := 0, cIdxA := 0,
                 objPick := [] } := rfl

/-- The color index under which the `k`-th object of a PICK cycle is drawn
is its 1-based ordinal reduced mod 256. -/
theorem pickColorIdxOfNth_eq (st0 : GLState) (k : Nat) :
    pickColorIdxOfNth st0 k = k % 256 := by
  unfold pickColorIdxOfNth
  rw [begin_PICK_st]
  exact drawNPick_cIdxR _ rfl rfl k

/-- Claim C2 counterexample: in a PICK cycle with 257 objects, the 1st and
the 257th drawn features receive the same color index (the 8-bit red channel
wraps), although they are distinct features. -/
theorem pick_color_idx_wraps :
    pickColorIdxOfNth ⟨S52_GL_cycle.NONE, false, 0, 0, 0, 0, []⟩ 257 =
      pickColorIdxOfNth ⟨S52_GL_cycle.NONE, false, 0, 0, 0, 0, []⟩ 1 ∧
    (257 : Nat) ≠ 1 := by
  rw [pickColorIdxOfNth_eq, pickColorIdxOfNth_eq]
  omega

/-- Claim C2 (amended): within a PICK cycle the color index of the `k`-th
drawn feature is `k` mod 256 (so the first feature gets 1 and the index
increments by one per feature), and any two distinct features drawn in the
same cycle receive distinct indices provided the cycle draws at most 255
features. -/
theorem pick_color_indices (st0 : GLState) (i j n : Nat)
    (hi1 : 1 ≤ i) (hin : i ≤ n) (hj1 : 1 ≤ j) (hjn : j ≤ n)
    (hn : n ≤ 255) (hij : i ≠ j) :
    pickColorIdxOfNth st0 i = i ∧ pickColorIdxOfNth st0 j = j ∧
    pickColorIdxOfNth st0 i ≠ pickColorIdxOfNth st0 j := by
  rw [pickColorIdxOfNth_eq, pickColorIdxOfNth_eq]
  omega

/-- Claim C2 witness: in a two-object PICK cycle the two features receive
the distinct indices 1 and 2. -/
theorem pick_color_indices_witness :
    pickColorIdxOfNth ⟨S52_GL_cycle.NONE, false, 0, 0, 0, 0, []⟩ 1 = 1 ∧
    pickColorIdxOfNth ⟨S52_GL_cycle.NONE, false, 0, 0, 0, 0, []⟩ 2 = 2 ∧
    pickColorIdxOfNth ⟨S52_GL_cycle.NONE, false, 0, 0, 0, 0, []⟩ 1 ≠
      pickColorIdxOfNth ⟨S52_GL_cycle.NONE, false, 0, 0, 0, 0, []⟩ 2 :=
  pick_color_indices ⟨S52_GL_cycle.NONE, false, 0, 0, 0, 0, []⟩ 1 2 2
    (by decide) (by decide) (by decide) (by decide) (by decide) (by decide)

/-- OR of outcodes is commutative. -/
theorem OutCode.lor_comm (a b : OutCode) : a.lor b = b.lor a := by
  simp [OutCode.lor, Bool.or_comm]

/-- The OR of two outcodes is all-clear exactly when both are. -/
theorem OutCode.lor_eq_zero_iff (a b : OutCode) :
    a.lor b = OutCode.zero ↔ a = OutCode.zero ∧ b = OutCode.zero := by
  obtain ⟨ar, atop, al, ab⟩ := a
  obtain ⟨br, btop, bl, bb⟩ := b
  simp only [OutCode.lor, OutCode.zero, OutCode.mk.injEq, Bool.or_eq_false_iff]
  tauto

/-- An outcode is nonzero exactly when one of its four bits is set. -/
theorem OutCode.ne_zero_iff (a : OutCode) :
    a ≠ OutCode.zero ↔
      a.right = true ∨ a.top = true ∨ a.left = true ∨ a.bottom = true := by
  obtain ⟨ar, atop, al, ab⟩ := a
  simp only [ne_eq, OutCode.zero, OutCode.mk.injEq, not_and]
  cases ar <;> cases atop <;> cases al <;> cases ab <;> simp

/-- When the AND of two outcodes is all-clear, no direction is shared. -/
theorem OutCode.land_zero_parts (a b : OutCode) (h : a.land b = OutCode.zero) :
    (a.right = true → b.right = false) ∧ (a.top = true → b.top = false) ∧
    (a.left = true → b.left = false) ∧ (a.bottom = true → b.bottom = false) := by
  obtain ⟨ar, atop, al, ab⟩ := a
  obtain ⟨br, btop, bl, bb⟩ := b
  simp only [OutCode.land, OutCode.zero, OutCode.mk.injEq] at h
  obtain ⟨h1, h2, h3, h4⟩ := h
  refine ⟨fun hx => ?_, fun hx => ?_, fun hx => ?_, fun hx => ?_⟩ <;>
    subst hx <;> simp_all

/-- An outcode is all-clear exactly when its point is within or on the clip
rectangle. -/
theorem outCode_zero_iff (r : ClipRect K) (x y : K) :
    _computeOutCode r x y = OutCode.zero ↔ inRect r x y := by
  simp only [_computeOutCode, OutCode.zero, OutCode.mk.injEq, inRect,
    decide_eq_false_iff_not, not_and, not_lt]
  constructor
  · rintro ⟨hr, ht, hl, hb⟩
    exact ⟨hl hr, hr, hb ht, ht⟩
  · rintro ⟨h1, h2, h3, h4⟩
    exact ⟨h2, h4, fun _ => h1, fun _ => h3⟩

/-- Monotonicity of an OR bit under a transfer implication. -/
theorem or_toNat_mono (a b c : Bool) (h : a = true → c = true ∨ b = true) :
    (a || b).toNat ≤ (c || b).toNat := by
  cases a with
  | false => cases b <;> cases c <;> simp
  | true =>
    rcases h rfl with hc | hb
    · subst hc; simp
    · subst hb; simp

/-- Strict decrease of the direction count when a vertical clip clears a
TOP or BOTTOM direction: `A` is the moved endpoint's new code, `B` the other
endpoint's (unchanged) code, `C` the moved endpoint's old code. -/
theorem dirCount_lt_clearTB (A B C : OutCode)
    (hAt : A.top = false) (hAb : A.bottom = false)
    (hAr : A.right = true → C.right = true ∨ B.right = true)
    (hAl : A.left = true → C.left = true ∨ B.left = true)
    (hkill : (C.top = true ∧ B.top = false) ∨
      (C.bottom = true ∧ B.bottom = false)) :
    dirCount (A.lor B) < dirCount (C.lor B) := by
  have hr : (A.right || B.right).toNat ≤ (C.right || B.right).toNat :=
    or_toNat_mono _ _ _ hAr
  have hl : (A.left || B.left).toNat ≤ (C.left || B.left).toNat :=
    or_toNat_mono _ _ _ hAl
  rcases hkill with ⟨hct, hbt⟩ | ⟨hcb, hbb⟩
  · have ht : (A.top || B.top).toNat = 0 := by rw [hAt, hbt]; rfl
    have ht' : (C.top || B.top).toNat = 1 := by rw [hct]; rfl
    have hb : (A.bottom || B.bottom).toNat ≤ (C.bottom || B.bottom).toNat :=
      or_toNat_mono _ _ _ (fun hx => absurd hx (by simp [hAb]))
    simp only [dirCount, OutCode.lor]
    omega
  · have hb : (A.bottom || B.bottom).toNat = 0 := by rw [hAb, hbb]; rfl
    have hb' : (C.bottom || B.bottom).toNat = 1 := by rw [hcb]; rfl
    have ht : (A.top || B.top).toNat ≤ (C.top || B.top).toNat :=
      or_toNat_mono _ _ _ (fun hx => absurd hx (by simp [hAt]))
    simp only [dirCount, OutCode.lor]
    omega

/-- Strict decrease of the direction count when a horizontal clip clears a
RIGHT or LEFT direction. -/
theorem dirCount_lt_clearRL (A B C : OutCode)
    (hAr : A.right = false) (hAl : A.left = false)
    (hAt : A.top = true → C.top = true ∨ B.top = true)
    (hAb : A.bottom = true → C.bottom = true ∨ B.bottom = true)
    (hkill : (C.right = true ∧ B.right = false) ∨
      (C.left = true ∧ B.left = false)) :
    dirCount (A.lor B) < dirCount (C.lor B) := by
  have ht : (A.top || B.top).toNat ≤ (C.top || B.top).toNat :=
    or_toNat_mono _ _ _ hAt
  have hb : (A.bottom || B.bottom).toNat ≤ (C.bottom || B.bottom).toNat :=
    or_toNat_mono _ _ _ hAb
  rcases hkill with ⟨hcr, hbr⟩ | ⟨hcl, hbl⟩
  · have hr : (A.right || B.right).toNat = 0 := by rw [hAr, hbr]; rfl
    have hr' : (C.right || B.right).toNat = 1 := by rw [hcr]; rfl
    have hl : (A.left || B.left).toNat ≤ (C.left || B.left).toNat :=
      or_toNat_mono _ _ _ (fun hx => absurd hx (by simp [hAl]))
    simp only [dirCount, OutCode.lor]
    omega
  · have hl : (A.left || B.left).toNat = 0 := by rw [hAl, hbl]; rfl
    have hl' : (C.left || B.left).toNat = 1 := by rw [hcl]; rfl
    have hr : (A.right || B.right).toNat ≤ (C.right || B.right).toNat :=
      or_toNat_mono _ _ _ (fun hx => absurd hx (by simp [hAr]))
    simp only [dirCount, OutCode.lor]
    omega

/-- A convex interpolation of two values stays at or below their maximum. -/
theorem lerp_le_max (x1 x2 t : K) (h0 : 0 ≤ t) (h1 : t ≤ 1) :
    x1 + t * (x2 - x1) ≤ max x1 x2 := by
  rcases le_total x1 x2 with hc | hc
  · rw [max_eq_right hc]
    nlinarith [mul_nonneg (sub_nonneg.2 h1) (sub_nonneg.2 hc)]
  · rw [max_eq_left hc]
    nlinarith [mul_nonneg h0 (sub_nonneg.2 hc)]

/-- A convex interpolation of two values stays at or above their minimum. -/
theorem min_le_lerp (x1 x2 t : K) (h0 : 0 ≤ t) (h1 : t ≤ 1) :
    min x1 x2 ≤ x1 + t * (x2 - x1) := by
  rcases le_total x1 x2 with hc | hc
  · rw [min_eq_left hc]
    nlinarith [mul_nonneg h0 (sub_nonneg.2 hc)]
  · rw [min_eq_right hc]
    nlinarith [mul_nonneg (sub_nonneg.2 h1) (sub_nonneg.2 hc)]

/-- The Cohen-Sutherland interpolation parameter toward a boundary value
lying between the two endpoint coordinates is a valid convex parameter, and
interpolating with it lands exactly on the boundary. -/
theorem clip_param (c1 c2 b : K) (hne : c1 ≠ c2)
    (hb1 : min c1 c2 ≤ b) (hb2 : b ≤ max c1 c2) :
    0 ≤ (b - c1) / (c2 - c1) ∧ (b - c1) / (c2 - c1) ≤ 1 ∧
      c1 + ((b - c1) / (c2 - c1)) * (c2 - c1) = b := by
  have hden : c2 - c1 ≠ 0 := sub_ne_zero.mpr (Ne.symm hne)
  have hid : c1 + ((b - c1) / (c2 - c1)) * (c2 - c1) = b := by
    rw [div_mul_cancel₀ _ hden]
    ring
  rcases lt_or_gt_of_ne hne with hlt | hgt
  · have hden' : 0 < c2 - c1 := by linarith
    have hminb : c1 ≤ b := by
      rw [min_eq_left (le_of_lt hlt)] at hb1
      exact hb1
    have hmaxb : b ≤ c2 := by
      rw [max_eq_right (le_of_lt hlt)] at hb2
      exact hb2
    exact ⟨div_nonneg (by linarith) (le_of_lt hden'),
      (div_le_one hden').mpr (by linarith), hid⟩
  · have hden' : c2 - c1 < 0 := by linarith
    have hminb : c2 ≤ b := by
      rw [min_eq_right (le_of_lt hgt)] at hb1
      exact hb1
    have hmaxb : b ≤ c1 := by
      rw [max_eq_left (le_of_lt hgt)] at hb2
      exact hb2
    refine ⟨div_nonneg_iff.mpr (Or.inr ⟨by linarith, le_of_lt hden'⟩),
      ?_, hid⟩
    rw [div_le_one_iff]
    exact Or.inr (Or.inr ⟨hden', by linarith⟩)

/-- The first endpoint of a segment lies on it. -/
theorem onSeg_ends_left (x1 y1 x2 y2 : K) : onSeg x1 y1 x2 y2 x1 y1 :=
  ⟨0, le_refl 0, zero_le_one, by ring, by ring⟩

/-- The second endpoint of a segment lies on it. -/
theorem onSeg_ends_right (x1 y1 x2 y2 : K) : onSeg x1 y1 x2 y2 x2 y2 :=
  ⟨1, zero_le_one, le_refl 1, by ring, by ring⟩

/-- A point on a subsegment whose endpoints lie on a segment lies on that
segment. -/
theorem onSeg_of_sub (x1 y1 x2 y2 a1 b1 a2 b2 px py : K)
    (h1 : onSeg x1 y1 x2 y2 a1 b1) (h2 : onSeg x1 y1 x2 y2 a2 b2)
    (hp : onSeg a1 b1 a2 b2 px py) : onSeg x1 y1 x2 y2 px py := by
  obtain ⟨s, hs0, hs1, hax, hay⟩ := h1
  obtain ⟨u, hu0, hu1, hbx, hby⟩ := h2
  obtain ⟨t, ht0, ht1, hpx, hpy⟩ := hp
  refine ⟨s + t * (u - s), ?_, ?_, ?_, ?_⟩
  · rcases le_total s u with hc | hc
    · nlinarith [mul_nonneg ht0 (sub_nonneg.2 hc)]
    · nlinarith [mul_nonneg (sub_nonneg.2 ht1) (sub_nonneg.2 hc)]
  · rcases le_total s u with hc | hc
    · nlinarith [mul_nonneg (sub_nonneg.2 ht1) (sub_nonneg.2 hc)]
    · nlinarith [mul_nonneg ht0 (sub_nonneg.2 hc)]
  · rw [hpx, hax, hbx]
    ring
  · rw [hpy, hay, hby]
    ring

/-- Clipping a segment against a horizontal boundary line `y = b` that lies
between the endpoint ordinates yields a point on the segment whose abscissa
stays between the endpoint abscissas. -/
theorem vertMove (x1 y1 x2 y2 b : K) (hne : y1 ≠ y2)
    (hb1 : min y1 y2 ≤ b) (hb2 : b ≤ max y1 y2) :
    onSeg x1 y1 x2 y2 (x1 + (x2 - x1) * (b - y1) / (y2 - y1)) b ∧
    min x1 x2 ≤ x1 + (x2 - x1) * (b - y1) / (y2 - y1) ∧
    x1 + (x2 - x1) * (b - y1) / (y2 - y1) ≤ max x1 x2 := by
  obtain ⟨ht0, ht1, hid⟩ := clip_param y1 y2 b hne hb1 hb2
  have hx : x1 + (x2 - x1) * (b - y1) / (y2 - y1) =
      x1 + ((b - y1) / (y2 - y1)) * (x2 - x1) := by
    ring
  refine ⟨⟨(b - y1) / (y2 - y1), ht0, ht1, hx, hid.symm⟩, ?_, ?_⟩
  · rw [hx]
    exact min_le_lerp x1 x2 _ ht0 ht1
  · rw [hx]
    exact lerp_le_max x1 x2 _ ht0 ht1

/-- Clipping a segment against a vertical boundary line `x = a` that lies
between the endpoint abscissas yields a point on the segment whose ordinate
stays between the endpoint ordinates. -/
theorem horizMove (x1 y1 x2 y2 a : K) (hne : x1 ≠ x2)
    (ha1 : min x1 x2 ≤ a) (ha2 : a ≤ max x1 x2) :
    onSeg x1 y1 x2 y2 a (y1 + (y2 - y1) * (a - x1) / (x2 - x1)) ∧
    min y1 y2 ≤ y1 + (y2 - y1) * (a - x1) / (x2 - x1) ∧
    y1 + (y2 - y1) * (a - x1) / (x2 - x1) ≤ max y1 y2 := by
  obtain ⟨ht0, ht1, hid⟩ := clip_param x1 x2 a hne ha1 ha2
  have hy : y1 + (y2 - y1) * (a - x1) / (x2 - x1) =
      y1 + ((a - x1) / (x2 - x1)) * (y2 - y1) := by
    ring
  refine ⟨⟨(a - x1) / (x2 - x1), ht0, ht1, hid.symm, hy⟩, ?_, ?_⟩
  · rw [hy]
    exact min_le_lerp y1 y2 _ ht0 ht1
  · rw [hy]
    exact lerp_le_max y1 y2 _ ht0 ht1

/-- Clipping against a horizontal clip edge `y = b` inside the vertical
band of a canonical window: the moved endpoint lies on the segment, its
vertical outcode bits clear, and its horizontal bits come from the old
endpoints. -/
theorem clipVert_spec (r : ClipRect K) (hu : r.pminu ≤ r.pmaxu)
    (x1 y1 x2 y2 b : K) (hblo : r.pminv ≤ b) (hbhi : b ≤ r.pmaxv)
    (hne : y1 ≠ y2) (hb1 : min y1 y2 ≤ b) (hb2 : b ≤ max y1 y2) :
    onSeg x1 y1 x2 y2 (x1 + (x2 - x1) * (b - y1) / (y2 - y1)) b ∧
    (_computeOutCode r (x1 + (x2 - x1) * (b - y1) / (y2 - y1)) b).top = false ∧
    (_computeOutCode r (x1 + (x2 - x1) * (b - y1) / (y2 - y1)) b).bottom = false ∧
    ((_computeOutCode r (x1 + (x2 - x1) * (b - y1) / (y2 - y1)) b).right = true →
      (_computeOutCode r x1 y1).right = true ∨
        (_computeOutCode r x2 y2).right = true) ∧
    ((_computeOutCode r (x1 + (x2 - x1) * (b - y1) / (y2 - y1)) b).left = true →
      (_computeOutCode r x1 y1).left = true ∨
        (_computeOutCode r x2 y2).left = true) := by
  obtain ⟨hseg, hxmin, hxmax⟩ := vertMove x1 y1 x2 y2 b hne hb1 hb2
  refine ⟨hseg, ?_, ?_, ?_, ?_⟩
  · simp only [_computeOutCode]
    exact decide_eq_false_iff_not.mpr (not_lt.mpr hbhi)
  · simp only [_computeOutCode]
    exact decide_eq_false_iff_not.mpr (fun hc => absurd hc.2 (not_lt.mpr hblo))
  · intro hr
    simp only [_computeOutCode, decide_eq_true_eq] at hr ⊢
    exact lt_max_iff.mp (lt_of_lt_of_le hr hxmax)
  · intro hl
    simp only [_computeOutCode, decide_eq_true_eq] at hl ⊢
    rcases min_lt_iff.mp (lt_of_le_of_lt hxmin hl.2) with hc | hc
    · exact Or.inl ⟨not_lt.mpr (le_of_lt (lt_of_lt_of_le hc hu)), hc⟩
    · exact Or.inr ⟨not_lt.mpr (le_of_lt (lt_of_lt_of_le hc hu)), hc⟩

/-- Clipping against a vertical clip edge `x = a` inside the horizontal
band of a canonical window: the moved endpoint lies on the segment, its
horizontal outcode bits clear, and its vertical bits come from the old
endpoints. -/
theorem clipHoriz_spec (r : ClipRect K) (hv : r.pminv ≤ r.pmaxv)
    (x1 y1 x2 y2 a : K) (halo : r.pminu ≤ a) (hahi : a ≤ r.pmaxu)
    (hne : x1 ≠ x2) (ha1 : min x1 x2 ≤ a) (ha2 : a ≤ max x1 x2) :
    onSeg x1 y1 x2 y2 a (y1 + (y2 - y1) * (a - x1) / (x2 - x1)) ∧
    (_computeOutCode r a (y1 + (y2 - y1) * (a - x1) / (x2 - x1))).right = false ∧
    (_computeOutCode r a (y1 + (y2 - y1) * (a - x1) / (x2 - x1))).left = false ∧
    ((_computeOutCode r a (y1 + (y2 - y1) * (a - x1) / (x2 - x1))).top = true →
      (_computeOutCode r x1 y1).top = true ∨
        (_computeOutCode r x2 y2).top = true) ∧
    ((_computeOutCode r a (y1 + (y2 - y1) * (a - x1) / (x2 - x1))).bottom = true →
      (_computeOutCode r x1 y1).bottom = true ∨
        (_computeOutCode r x2 y2).bottom = true) := by
  obtain ⟨hseg, hymin, hymax⟩ := horizMove x1 y1 x2 y2 a hne ha1 ha2
  refine ⟨hseg, ?_, ?_, ?_, ?_⟩
  · simp only [_computeOutCode]
    exact decide_eq_false_iff_not.mpr (not_lt.mpr hahi)
  · simp only [_computeOutCode]
    exact decide_eq_false_iff_not.mpr (fun hc => absurd hc.2 (not_lt.mpr halo))
  · intro ht
    simp only [_computeOutCode, decide_eq_true_eq] at ht ⊢
    exact lt_max_iff.mp (lt_of_lt_of_le ht hymax)
  · intro hb
    simp only [_computeOutCode, decide_eq_true_eq] at hb ⊢
    rcases min_lt_iff.mp (lt_of_le_of_lt hymin hb.2) with hc | hc
    · exact Or.inl ⟨not_lt.mpr (le_of_lt (lt_of_lt_of_le hc hv)), hc⟩
    · exact Or.inr ⟨not_lt.mpr (le_of_lt (lt_of_lt_of_le hc hv)), hc⟩

/-- The union direction count is symmetric in the two endpoints. -/
theorem unionDirCount_comm (r : ClipRect K) (x1 y1 x2 y2 : K) :
    unionDirCount r x1 y1 x2 y2 = unionDirCount r x2 y2 x1 y1 := by
  unfold unionDirCount
  rw [OutCode.lor_comm]

/-- One non-terminal pass of the `_clipToView` loop keeps both endpoints on
the original segment and strictly decreases the number of clip-window edges
violated by the endpoint pair (for a canonical clip window). -/
theorem clipStep_more_spec (r : ClipRect K) (hu : r.pminu ≤ r.pmaxu)
    (hv : r.pminv ≤ r.pmaxv) (x1 y1 x2 y2 a1 b1 a2 b2 : K)
    (h : _clipStep r x1 y1 x2 y2 = ClipStep.more a1 b1 a2 b2) :
    onSeg x1 y1 x2 y2 a1 b1 ∧ onSeg x1 y1 x2 y2 a2 b2 ∧
    unionDirCount r a1 b1 a2 b2 < unionDirCount r x1 y1 x2 y2 := by
  simp only [_clipStep] at h
  by_cases hlor : (_computeOutCode r x1 y1).lor (_computeOutCode r x2 y2) =
      OutCode.zero
  · rw [if_pos hlor] at h
    exact absurd h (by simp)
  rw [if_neg hlor] at h
  by_cases hland : (_computeOutCode r x1 y1).land (_computeOutCode r x2 y2) =
      OutCode.zero
  case neg =>
    rw [if_pos hland] at h
    exact absurd h (by simp)
  rw [if_neg (not_not_intro hland)] at h
  obtain ⟨hTr, hTt, hTl, hTb⟩ := OutCode.land_zero_parts _ _ hland
  by_cases hsel : _computeOutCode r x1 y1 ≠ OutCode.zero
  · -- the C ternary picks outcode1: the first endpoint moves
    rw [if_pos hsel, if_pos rfl] at h
    by_cases htop : (_computeOutCode r x1 y1).top = true
    · rw [if_pos htop] at h
      dsimp only at h
      injection h with h1 h2 h3 h4
      subst h1; subst h2; subst h3; subst h4
      have hy1 : r.pmaxv < y1 := by
        have hz := htop
        simp only [_computeOutCode, decide_eq_true_eq] at hz
        exact hz
      have htop2 : (_computeOutCode r x2 y2).top = false := hTt htop
      have hy2 : y2 ≤ r.pmaxv := by
        have hz := htop2
        simp only [_computeOutCode, decide_eq_false_iff_not, not_lt] at hz
        exact hz
      have hne : y1 ≠ y2 := (lt_of_le_of_lt hy2 hy1).ne'
      obtain ⟨hseg, hAt, hAb, hAr, hAl⟩ := clipVert_spec r hu x1 y1 x2 y2
        r.pmaxv hv (le_refl _) hne ((min_le_right _ _).trans hy2)
        ((le_of_lt hy1).trans (le_max_left _ _))
      exact ⟨hseg, onSeg_ends_right x1 y1 x2 y2,
        dirCount_lt_clearTB _ _ _ hAt hAb hAr hAl (Or.inl ⟨htop, htop2⟩)⟩
    rw [if_neg htop] at h
    by_cases hbot : (_computeOutCode r x1 y1).bottom = true
    · rw [if_pos hbot] at h
      dsimp only at h
      injection h with h1 h2 h3 h4
      subst h1; subst h2; subst h3; subst h4
      have hy1 : y1 < r.pminv := by
        have hz := hbot
        simp only [_computeOutCode, decide_eq_true_eq] at hz
        exact hz.2
      have hbot2 : (_computeOutCode r x2 y2).bottom = false := hTb hbot
      have hy2 : r.pminv ≤ y2 := by
        have hz := hbot2
        simp only [_computeOutCode, decide_eq_false_iff_not, not_and, not_lt] at hz
        by_cases hgt : r.pmaxv < y2
        · exact hv.trans (le_of_lt hgt)
        · exact hz (not_lt.mp hgt)
      have hne : y1 ≠ y2 := (lt_of_lt_of_le hy1 hy2).ne
      obtain ⟨hseg, hAt, hAb, hAr, hAl⟩ := clipVert_spec r hu x1 y1 x2 y2
        r.pminv (le_refl _) hv hne ((min_le_left _ _).trans (le_of_lt hy1))
        (hy2.trans (le_max_right _ _))
      exact ⟨hseg, onSeg_ends_right x1 y1 x2 y2,
        dirCount_lt_clearTB _ _ _ hAt hAb hAr hAl (Or.inr ⟨hbot, hbot2⟩)⟩
    rw [if_neg hbot] at h
    by_cases hrt : (_computeOutCode r x1 y1).right = true
    · rw [if_pos hrt] at h
      dsimp only at h
      injection h with h1 h2 h3 h4
      subst h1; subst h2; subst h3; subst h4
      have hx1 : r.pmaxu < x1 := by
        have hz := hrt
        simp only [_computeOutCode, decide_eq_true_eq] at hz
        exact hz
      have hrt2 : (_computeOutCode r x2 y2).right = false := hTr hrt
      have hx2 : x2 ≤ r.pmaxu := by
        have hz := hrt2
        simp only [_computeOutCode, decide_eq_false_iff_not, not_lt] at hz
        exact hz
      have hne : x1 ≠ x2 := (lt_of_le_of_lt hx2 hx1).ne'
      obtain ⟨hseg, hAr', hAl', hAt', hAb'⟩ := clipHoriz_spec r hv x1 y1 x2 y2
        r.pmaxu hu (le_refl _) hne ((min_le_right _ _).trans hx2)
        ((le_of_lt hx1).trans (le_max_left _ _))
      exact ⟨hseg, onSeg_ends_right x1 y1 x2 y2,
        dirCount_lt_clearRL _ _ _ hAr' hAl' hAt' hAb' (Or.inl ⟨hrt, hrt2⟩)⟩
    rw [if_neg hrt] at h
    by_cases hlf : (_computeOutCode r x1 y1).left = true
    · rw [if_pos hlf] at h
      dsimp only at h
      injection h with h1 h2 h3 h4
      subst h1; subst h2; subst h3; subst h4
      have hx1 : x1 < r.pminu := by
        have hz := hlf
        simp only [_computeOutCode, decide_eq_true_eq] at hz
        exact hz.2
      have hlf2 : (_computeOutCode r x2 y2).left = false := hTl hlf
      have hx2 : r.pminu ≤ x2 := by
        have hz := hlf2
        simp only [_computeOutCode, decide_eq_false_iff_not, not_and, not_lt] at hz
        by_cases hgt : r.pmaxu < x2
        · exact hu.trans (le_of_lt hgt)
        · exact hz (not_lt.mp hgt)
      have hne : x1 ≠ x2 := (lt_of_lt_of_le hx1 hx2).ne
      obtain ⟨hseg, hAr', hAl', hAt', hAb'⟩ := clipHoriz_spec r hv x1 y1 x2 y2
        r.pminu (le_refl _) hu hne ((min_le_left _ _).trans (le_of_lt hx1))
        (hx2.trans (le_max_right _ _))
      exact ⟨hseg, onSeg_ends_right x1 y1 x2 y2,
        dirCount_lt_clearRL _ _ _ hAr' hAl' hAt' hAb' (Or.inr ⟨hlf, hlf2⟩)⟩
    rcases (OutCode.ne_zero_iff _).mp hsel with hc | hc | hc | hc
    · exact absurd hc hrt
    · exact absurd hc htop
    · exact absurd hc hlf
    · exact absurd hc hbot
  · -- the C ternary picks outcode2: the second endpoint moves
    rw [if_neg hsel] at h
    have hz1 : _computeOutCode r x1 y1 = OutCode.zero := not_not.mp hsel
    have hnz2 : _computeOutCode r x2 y2 ≠ OutCode.zero := by
      intro hz2
      exact hlor ((OutCode.lor_eq_zero_iff _ _).mpr ⟨hz1, hz2⟩)
    rw [if_neg (fun hc => hnz2 (hc.trans hz1))] at h
    obtain ⟨hp1l, hp1r, hp1b, hp1t⟩ := (outCode_zero_iff r x1 y1).mp hz1
    have hB_top : (_computeOutCode r x1 y1).top = false := by rw [hz1]; rfl
    have hB_bot : (_computeOutCode r x1 y1).bottom = false := by rw [hz1]; rfl
    have hB_rt : (_computeOutCode r x1 y1).right = false := by rw [hz1]; rfl
    have hB_lf : (_computeOutCode r x1 y1).left = false := by rw [hz1]; rfl
    by_cases htop : (_computeOutCode r x2 y2).top = true
    · rw [if_pos htop] at h
      dsimp only at h
      injection h with h1 h2 h3 h4
      subst h1; subst h2; subst h3; subst h4
      have hy2 : r.pmaxv < y2 := by
        have hz := htop
        simp only [_computeOutCode, decide_eq_true_eq] at hz
        exact hz
      have hne : y1 ≠ y2 := (lt_of_le_of_lt hp1t hy2).ne
      obtain ⟨hseg, hAt, hAb, hAr, hAl⟩ := clipVert_spec r hu x1 y1 x2 y2
        r.pmaxv hv (le_refl _) hne ((min_le_left _ _).trans hp1t)
        ((le_of_lt hy2).trans (le_max_right _ _))
      refine ⟨onSeg_ends_left x1 y1 x2 y2, hseg, ?_⟩
      rw [unionDirCount_comm r x1 y1, unionDirCount_comm r x1 y1]
      exact dirCount_lt_clearTB _ _ _ hAt hAb
        (fun hx => (hAr hx).symm) (fun hx => (hAl hx).symm)
        (Or.inl ⟨htop, hB_top⟩)
    rw [if_neg htop] at h
    by_cases hbot : (_computeOutCode r x2 y2).bottom = true
    · rw [if_pos hbot] at h
      dsimp only at h
      injection h with h1 h2 h3 h4
      subst h1; subst h2; subst h3; subst h4
      have hy2 : y2 < r.pminv := by
        have hz := hbot
        simp only [_computeOutCode, decide_eq_true_eq] at hz
        exact hz.2
      have hne : y1 ≠ y2 := (lt_of_lt_of_le hy2 hp1b).ne'
      obtain ⟨hseg, hAt, hAb, hAr, hAl⟩ := clipVert_spec r hu x1 y1 x2 y2
        r.pminv (le_refl _) hv hne ((min_le_right _ _).trans (le_of_lt hy2))
        (hp1b.trans (le_max_left _ _))
      refine ⟨onSeg_ends_left x1 y1 x2 y2, hseg, ?_⟩
      rw [unionDirCount_comm r x1 y1, unionDirCount_comm r x1 y1]
      exact dirCount_lt_clearTB _ _ _ hAt hAb
        (fun hx => (hAr hx).symm) (fun hx => (hAl hx).symm)
        (Or.inr ⟨hbot, hB_bot⟩)
    rw [if_neg hbot] at h
    by_cases hrt : (_computeOutCode r x2 y2).right = true
    · rw [if_pos hrt] at h
      dsimp only at h
      injection h with h1 h2 h3 h4
      subst h1; subst h2; subst h3; subst h4
      have hx2 : r.pmaxu < x2 := by
        have hz := hrt
        simp only [_computeOutCode, decide_eq_true_eq] at hz
        exact hz
      have hne : x1 ≠ x2 := (lt_of_le_of_lt hp1r hx2).ne
      obtain ⟨hseg, hAr', hAl', hAt', hAb'⟩ := clipHoriz_spec r hv x1 y1 x2 y2
        r.pmaxu hu (le_refl _) hne ((min_le_left _ _).trans hp1r)
        ((le_of_lt hx2).trans (le_max_right _ _))
      refine ⟨onSeg_ends_left x1 y1 x2 y2, hseg, ?_⟩
      rw [unionDirCount_comm r x1 y1, unionDirCount_comm r x1 y1]
      exact dirCount_lt_clearRL _ _ _ hAr' hAl'
        (fun hx => (hAt' hx).symm) (fun hx => (hAb' hx).symm)
        (Or.inl ⟨hrt, hB_rt⟩)
    rw [if_neg hrt] at h
    by_cases hlf : (_computeOutCode r x2 y2).left = true
    · rw [if_pos hlf] at h
      dsimp only at h
      injection h with h1 h2 h3 h4
      subst h1; subst h2; subst h3; subst h4
      have hx2 : x2 < r.pminu := by
        have hz := hlf
        simp only [_computeOutCode, decide_eq_true_eq] at hz
        exact hz.2
      have hne : x1 ≠ x2 := (lt_of_lt_of_le hx2 hp1l).ne'
      obtain ⟨hseg, hAr', hAl', hAt', hAb'⟩ := clipHoriz_spec r hv x1 y1 x2 y2
        r.pminu (le_refl _) hu hne ((min_le_right _ _).trans (le_of_lt hx2))
        (hp1l.trans (le_max_left _ _))
      refine ⟨onSeg_ends_left x1 y1 x2 y2, hseg, ?_⟩
      rw [unionDirCount_comm r x1 y1, unionDirCount_comm r x1 y1]
      exact dirCount_lt_clearRL _ _ _ hAr' hAl'
        (fun hx => (hAt' hx).symm) (fun hx => (hAb' hx).symm)
        (Or.inr ⟨hlf, hB_lf⟩)
    rcases (OutCode.ne_zero_iff _).mp hnz2 with hc | hc | hc | hc
    · exact absurd hc hrt
    · exact absurd hc htop
    · exact absurd hc hlf
    · exact absurd hc hbot

/-- A terminal pass of the `_clipToView` loop returns the current
coordinates, and reports acceptance only with both endpoints within or on
the window. -/
theorem clipStep_done_spec (r : ClipRect K) (x1 y1 x2 y2 : K) (a : Bool)
    (q1 q2 q3 q4 : K)
    (h : _clipStep r x1 y1 x2 y2 = ClipStep.done a q1 q2 q3 q4) :
    q1 = x1 ∧ q2 = y1 ∧ q3 = x2 ∧ q4 = y2 ∧
    (a = true → inRect r x1 y1 ∧ inRect r x2 y2) := by
  simp only [_clipStep] at h
  by_cases hlor : (_computeOutCode r x1 y1).lor (_computeOutCode r x2 y2) =
      OutCode.zero
  · rw [if_pos hlor] at h
    injection h with ha h1 h2 h3 h4
    obtain ⟨hz1, hz2⟩ := (OutCode.lor_eq_zero_iff _ _).mp hlor
    exact ⟨h1.symm, h2.symm, h3.symm, h4.symm,
      fun _ => ⟨(outCode_zero_iff r x1 y1).mp hz1,
        (outCode_zero_iff r x2 y2).mp hz2⟩⟩
  rw [if_neg hlor] at h
  by_cases hland : (_computeOutCode r x1 y1).land (_computeOutCode r x2 y2) ≠
      OutCode.zero
  · rw [if_pos hland] at h
    injection h with ha h1 h2 h3 h4
    exact ⟨h1.symm, h2.symm, h3.symm, h4.symm,
      fun hat => absurd (ha.trans hat) (by simp)⟩
  rw [if_neg hland] at h
  rcases em ((if _computeOutCode r x1 y1 ≠ OutCode.zero then
      _computeOutCode r x1 y1 else _computeOutCode r x2 y2) =
      _computeOutCode r x1 y1) with hc | hc
  · rw [if_pos hc] at h
    exact absurd h (by simp)
  · rw [if_neg hc] at h
    exact absurd h (by simp)

/-- Every outcode violates at most the four window edges. -/
theorem dirCount_le_four (c : OutCode) : dirCount c ≤ 4 := by
  have h1 := Bool.toNat_le c.right
  have h2 := Bool.toNat_le c.top
  have h3 := Bool.toNat_le c.left
  have h4 := Bool.toNat_le c.bottom
  unfold dirCount
  omega

/-- The `_clipToView` loop terminates once the fuel exceeds the number of
window edges the endpoints violate (canonical window). -/
theorem clipLoop_isSome (r : ClipRect K) (hu : r.pminu ≤ r.pmaxu)
    (hv : r.pminv ≤ r.pmaxv) :
    ∀ (fuel : Nat) (x1 y1 x2 y2 : K), unionDirCount r x1 y1 x2 y2 < fuel →
      (_clipLoop r fuel x1 y1 x2 y2).isSome = true := by
  intro fuel
  induction fuel with
  | zero => intro x1 y1 x2 y2 hlt; omega
  | succ n ih =>
    intro x1 y1 x2 y2 hlt
    cases hstep : _clipStep r x1 y1 x2 y2 with
    | done a q1 q2 q3 q4 => simp [_clipLoop, hstep]
    | more q1 q2 q3 q4 =>
      have hdec := (clipStep_more_spec r hu hv x1 y1 x2 y2 q1 q2 q3 q4 hstep).2.2
      simp only [_clipLoop, hstep]
      exact ih q1 q2 q3 q4 (by omega)

/-- When the `_clipToView` loop accepts, the returned endpoints are within
or on the window. -/
theorem clipLoop_true_inRect (r : ClipRect K) :
    ∀ (fuel : Nat) (x1 y1 x2 y2 q1 q2 q3 q4 : K),
      _clipLoop r fuel x1 y1 x2 y2 = some (true, q1, q2, q3, q4) →
      inRect r q1 q2 ∧ inRect r q3 q4 := by
  intro fuel
  induction fuel with
  | zero => intro x1 y1 x2 y2 q1 q2 q3 q4 h; exact absurd h (by simp [_clipLoop])
  | succ n ih =>
    intro x1 y1 x2 y2 q1 q2 q3 q4 h
    cases hstep : _clipStep r x1 y1 x2 y2 with
    | done a p1 p2 p3 p4 =>
      simp only [_clipLoop, hstep, Option.some.injEq, Prod.mk.injEq] at h
      obtain ⟨ha, h1, h2, h3, h4⟩ := h
      obtain ⟨hp1, hp2, hp3, hp4, hacc⟩ :=
        clipStep_done_spec r x1 y1 x2 y2 a p1 p2 p3 p4 hstep
      obtain ⟨hin1, hin2⟩ := hacc ha
      subst h1; subst h2; subst h3; subst h4
      rw [hp1, hp2, hp3, hp4]
      exact ⟨hin1, hin2⟩
    | more p1 p2 p3 p4 =>
      simp only [_clipLoop, hstep] at h
      exact ih p1 p2 p3 p4 q1 q2 q3 q4 h

/-- The `_clipToView` loop never accepts a segment that misses the
(canonical) clip window. -/
theorem clipLoop_no_accept_of_miss (r : ClipRect K) (hu : r.pminu ≤ r.pmaxu)
    (hv : r.pminv ≤ r.pmaxv) :
    ∀ (fuel : Nat) (x1 y1 x2 y2 : K),
      (∀ px py, onSeg x1 y1 x2 y2 px py → ¬inRect r px py) →
      ∀ (a : Bool) (q1 q2 q3 q4 : K),
        _clipLoop r fuel x1 y1 x2 y2 = some (a, q1, q2, q3, q4) → a = false := by
  intro fuel
  induction fuel with
  | zero =>
    intro x1 y1 x2 y2 hmiss a q1 q2 q3 q4 h
    exact absurd h (by simp [_clipLoop])
  | succ n ih =>
    intro x1 y1 x2 y2 hmiss a q1 q2 q3 q4 h
    cases hstep : _clipStep r x1 y1 x2 y2 with
    | done a' p1 p2 p3 p4 =>
      simp only [_clipLoop, hstep, Option.some.injEq, Prod.mk.injEq] at h
      obtain ⟨ha, h1, h2, h3, h4⟩ := h
      obtain ⟨-, -, -, -, hacc⟩ :=
        clipStep_done_spec r x1 y1 x2 y2 a' p1 p2 p3 p4 hstep
      cases hav : a' with
      | false => rw [← ha, hav]
      | true =>
        obtain ⟨hin1, -⟩ := hacc hav
        exact absurd hin1 (hmiss x1 y1 (onSeg_ends_left x1 y1 x2 y2))
    | more p1 p2 p3 p4 =>
      simp only [_clipLoop, hstep] at h
      obtain ⟨hseg1, hseg2, -⟩ :=
        clipStep_more_spec r hu hv x1 y1 x2 y2 p1 p2 p3 p4 hstep
      refine ih p1 p2 p3 p4 ?_ a q1 q2 q3 q4 h
      intro px py hp
      exact hmiss px py (onSeg_of_sub x1 y1 x2 y2 p1 p2 p3 p4 px py hseg1 hseg2 hp)

/-- Claim C3: for a canonical view rectangle, `_clipToView` always
terminates with a result; on TRUE both endpoints of the clipped segment lie
within or on the view rectangle, and when the original segment does not
intersect the rectangle the function returns FALSE. -/
theorem clipToView_correct (r : ClipRect K) (hu : r.pminu ≤ r.pmaxu)
    (hv : r.pminv ≤ r.pmaxv) (x1 y1 x2 y2 : K) :
    ∃ (acc : Bool) (q1 q2 q3 q4 : K),
      _clipToView r x1 y1 x2 y2 = some (acc, q1, q2, q3, q4) ∧
      (acc = true → inRect r q1 q2 ∧ inRect r q3 q4) ∧
      ((∀ px py, onSeg x1 y1 x2 y2 px py → ¬inRect r px py) → acc = false) := by
  have hsome : (_clipLoop r 5 x1 y1 x2 y2).isSome = true := by
    refine clipLoop_isSome r hu hv 5 x1 y1 x2 y2 ?_
    have := dirCount_le_four
      ((_computeOutCode r x1 y1).lor (_computeOutCode r x2 y2))
    unfold unionDirCount
    omega
  obtain ⟨res, hres⟩ := Option.isSome_iff_exists.mp hsome
  obtain ⟨acc, q1, q2, q3, q4⟩ := res
  refine ⟨acc, q1, q2, q3, q4, hres, ?_, ?_⟩
  · intro hacc
    subst hacc
    exact clipLoop_true_inRect r 5 x1 y1 x2 y2 q1 q2 q3 q4 hres
  · intro hmiss
    exact clipLoop_no_accept_of_miss r hu hv 5 x1 y1 x2 y2 hmiss
      acc q1 q2 q3 q4 hres

/-- Claim C3 witness: the vertical segment at x = 20 misses the window
[0,10]x[0,10], and `_clipToView` reports FALSE on it. -/
theorem clipToView_correct_witness :
    ∃ q1 q2 q3 q4 : ℚ,
      _clipToView ⟨0, 0, 10, 10⟩ 20 0 20 10 = some (false, q1, q2, q3, q4) := by
  obtain ⟨acc, q1, q2, q3, q4, heq, -, hmiss⟩ :=
    clipToView_correct (⟨0, 0, 10, 10⟩ : ClipRect ℚ) (by norm_num) (by norm_num)
      20 0 20 10
  have hacc : acc = false := by
    refine hmiss ?_
    rintro px py ⟨t, ht0, ht1, hpx, hpy⟩ ⟨h1, h2, h3, h4⟩
    have hpx20 : px = 20 := by rw [hpx]; ring
    rw [hpx20] at h2
    norm_num at h2
  exact ⟨q1, q2, q3, q4, hacc ▸ heq⟩

/-- A segment with both endpoints within or on the view is accepted
unchanged on the first pass of `_clipToView`. -/
theorem clipToView_inside (r : ClipRect K) (x1 y1 x2 y2 : K)
    (h1 : inRect r x1 y1) (h2 : inRect r x2 y2) :
    _clipToView r x1 y1 x2 y2 = some (true, x1, y1, x2, y2) := by
  have hlor : (_computeOutCode r x1 y1).lor (_computeOutCode r x2 y2) =
      OutCode.zero :=
    (OutCode.lor_eq_zero_iff _ _).mpr
      ⟨(outCode_zero_iff r x1 y1).mpr h1, (outCode_zero_iff r x2 y2).mpr h2⟩
  have hstep : _clipStep r x1 y1 x2 y2 = ClipStep.done true x1 y1 x2 y2 := by
    simp only [_clipStep]
    rw [if_pos hlor]
  show _clipLoop r 5 x1 y1 x2 y2 = some (true, x1, y1, x2, y2)
  simp only [_clipLoop, hstep]

/-- The symbol-placement loop of `_renderLC` executes exactly its iteration
count. -/
theorem lcSymbols_length (x1 y1 vx vy : ℝ) :
    ∀ (n : Nat) (ox oy : ℝ), (lcSymbols x1 y1 vx vy n ox oy).length = n := by
  intro n
  induction n with
  | zero => intro ox oy; rfl
  | succ m ih => intro ox oy; simp [lcSymbols, ih]

/-- The `j`-th symbol placed by the `_renderLC` loop sits `j` symbol steps
past the segment start (plus the incoming offset). -/
theorem lcSymbols_getElem (x1 y1 vx vy : ℝ) :
    ∀ (n : Nat) (ox oy : ℝ) (j : Nat), j < n →
      (lcSymbols x1 y1 vx vy n ox oy)[j]? =
        some (x1 + ox + j * vx, y1 + oy + j * vy) := by
  intro n
  induction n with
  | zero => intro ox oy j hj; omega
  | succ m ih =>
    intro ox oy j hj
    cases j with
    | zero =>
      simp [lcSymbols]
    | succ k =>
      have hk : k < m := by omega
      show ((x1 + ox, y1 + oy) ::
        lcSymbols x1 y1 vx vy m (ox + vx) (oy + vy))[k + 1]? = _
      rw [List.getElem?_cons_succ, ih (ox + vx) (oy + vy) k hk]
      congr 2
      · push_cast
        ring
      · push_cast
        ring

/-- Claim C6: for a segment the LC renderer processes (clip accepted, not
depth-suppressed) with a positive symbol length, the number of symbol
instances placed is exactly the floor of the clipped segment length over
the symbol length (witnessed both by the floor expression and by the
bracketing inequalities), the `j`-th instance is placed `j` symbol steps
along the clipped segment, the remaining partial length is appended to the
residual buffer as the single plain segment from the last offset to the
clipped segment end, and the whole polyline's residual buffer is drawn in
exactly one LINES batch at the end. -/
theorem renderLC_floor_symbols (r : ClipRect ℝ) (symlen_wrld : ℝ)
    (hsym : 0 < symlen_wrld) (x1 y1 z1 x2 y2 z2 cx1 cy1 cx2 cy2 : ℝ)
    (hclip : _clipToView r x1 y1 x2 y2 = some (true, cx1, cy1, cx2, cy2))
    (hz : ¬(z1 < 0 ∧ z2 < 0)) :
    (renderLCseg r symlen_wrld x1 y1 z1 x2 y2 z2).syms.length =
      (⌊lcSeglen cx1 cy1 cx2 cy2 / symlen_wrld⌋).toNat ∧
    ((renderLCseg r symlen_wrld x1 y1 z1 x2 y2 z2).syms.length : ℝ) *
        symlen_wrld ≤ lcSeglen cx1 cy1 cx2 cy2 ∧
    lcSeglen cx1 cy1 cx2 cy2 <
      ((renderLCseg r symlen_wrld x1 y1 z1 x2 y2 z2).syms.length + 1 : ℝ) *
        symlen_wrld ∧
    (∀ j : Nat,
      j < (renderLCseg r symlen_wrld x1 y1 z1 x2 y2 z2).syms.length →
      (renderLCseg r symlen_wrld x1 y1 z1 x2 y2 z2).syms[j]? =
        some (cx1 + j * lcSymVecX cx1 cy1 cx2 cy2 symlen_wrld,
              cy1 + j * lcSymVecY cx1 cy1 cx2 cy2 symlen_wrld)) ∧
    (renderLCseg r symlen_wrld x1 y1 z1 x2 y2 z2).rest =
      [(cx1 + ((renderLCseg r symlen_wrld x1 y1 z1 x2 y2 z2).syms.length : ℝ) *
          lcSymVecX cx1 cy1 cx2 cy2 symlen_wrld,
        cy1 + ((renderLCseg r symlen_wrld x1 y1 z1 x2 y2 z2).syms.length : ℝ) *
          lcSymVecY cx1 cy1 cx2 cy2 symlen_wrld, 0),
       (cx2, cy2, 0)] ∧
    ∀ pts : List (ℝ × ℝ × ℝ),
      (_renderLC r symlen_wrld pts).snd =
        [LinesDraw.drawArraysLines
          (((pts.zip pts.tail).map fun pq =>
            (renderLCseg r symlen_wrld pq.1.1 pq.1.2.1 pq.1.2.2
              pq.2.1 pq.2.2.1 pq.2.2.2).rest).flatten)] := by
  have hout : renderLCseg r symlen_wrld x1 y1 z1 x2 y2 z2 =
      ⟨lcSymbols cx1 cy1 (lcSymVecX cx1 cy1 cx2 cy2 symlen_wrld)
          (lcSymVecY cx1 cy1 cx2 cy2 symlen_wrld)
          (⌊lcSeglen cx1 cy1 cx2 cy2 / symlen_wrld⌋).toNat 0 0,
       [(cx1 + ((⌊lcSeglen cx1 cy1 cx2 cy2 / symlen_wrld⌋).toNat : ℝ) *
            lcSymVecX cx1 cy1 cx2 cy2 symlen_wrld,
         cy1 + ((⌊lcSeglen cx1 cy1 cx2 cy2 / symlen_wrld⌋).toNat : ℝ) *
            lcSymVecY cx1 cy1 cx2 cy2 symlen_wrld, 0),
        (cx2, cy2, 0)]⟩ := by
    simp only [renderLCseg, hclip]
    rw [if_neg hz]
  have hL0 : 0 ≤ lcSeglen cx1 cy1 cx2 cy2 := Real.sqrt_nonneg _
  have hq0 : 0 ≤ lcSeglen cx1 cy1 cx2 cy2 / symlen_wrld :=
    div_nonneg hL0 (le_of_lt hsym)
  have hfl0 : 0 ≤ ⌊lcSeglen cx1 cy1 cx2 cy2 / symlen_wrld⌋ :=
    Int.floor_nonneg.mpr hq0
  have hcast : (((⌊lcSeglen cx1 cy1 cx2 cy2 / symlen_wrld⌋).toNat : ℕ) : ℝ) =
      ((⌊lcSeglen cx1 cy1 cx2 cy2 / symlen_wrld⌋ : ℤ) : ℝ) := by
    exact_mod_cast congrArg (fun z : ℤ => (z : ℝ)) (Int.toNat_of_nonneg hfl0)
  have hlen : (renderLCseg r symlen_wrld x1 y1 z1 x2 y2 z2).syms.length =
      (⌊lcSeglen cx1 cy1 cx2 cy2 / symlen_wrld⌋).toNat := by
    rw [hout]
    exact lcSymbols_length _ _ _ _ _ _ _
  refine ⟨hlen, ?_, ?_, ?_, ?_, ?_⟩
  · rw [hlen, hcast]
    rw [← le_div_iff₀ hsym]
    exact Int.floor_le _
  · rw [hlen]
    have hlt : lcSeglen cx1 cy1 cx2 cy2 / symlen_wrld <
        (⌊lcSeglen cx1 cy1 cx2 cy2 / symlen_wrld⌋ : ℝ) + 1 :=
      Int.lt_floor_add_one _
    rw [← div_lt_iff₀ hsym]
    rw [hcast]
    exact hlt
  · intro j hj
    rw [hlen] at hj
    rw [hout]
    show (lcSymbols cx1 cy1 _ _ _ 0 0)[j]? = _
    rw [lcSymbols_getElem _ _ _ _ _ 0 0 j hj]
    congr 2
    · ring
    · ring
  · rw [hlen, hout]
  · intro pts
    simp only [_renderLC, List.map_map]
    rfl

/-- Claim C6 witness: the segment (0,0)-(3,4) inside a large view with
symbol length 1 receives exactly floor(5/1) = 5 symbol instances. -/
theorem renderLC_floor_symbols_witness :
    (renderLCseg ⟨-100, -100, 100, 100⟩ 1 0 0 0 3 4 0).syms.length =
      (⌊lcSeglen 0 0 3 4 / 1⌋).toNat ∧
    (renderLCseg ⟨-100, -100, 100, 100⟩ 1 0 0 0 3 4 0).syms.length = 5 := by
  have hclip : _clipToView (⟨-100, -100, 100, 100⟩ : ClipRect ℝ) 0 0 3 4 =
      some (true, 0, 0, 3, 4) :=
    clipToView_inside _ 0 0 3 4 (by norm_num [inRect]) (by norm_num [inRect])
  obtain ⟨hlen, -, -, -, -, -⟩ :=
    renderLC_floor_symbols ⟨-100, -100, 100, 100⟩ 1 (by norm_num)
      0 0 0 3 4 0 0 0 3 4 hclip (by norm_num)
  refine ⟨hlen, ?_⟩
  rw [hlen]
  have h25 : lcSeglen 0 0 3 4 = 5 := by
    unfold lcSeglen
    rw [show ((0:ℝ) - 3) ^ 2 + ((0:ℝ) - 4) ^ 2 = 5 ^ 2 by norm_num]
    exact Real.sqrt_sq (by norm_num)
  rw [h25]
  rw [show (5:ℝ) / 1 = ((5:ℤ) : ℝ) by norm_num, Int.floor_intCast]
  rfl

/-- Claim C8 (amended): `S57_setExt` performs no canonicity validation at
all — it stores the given W, S, E, N unconditionally (as `S57_getExt`
confirms) and returns TRUE; the only reaction to bad input is a debug
assertion, raised exactly when both x-coordinates are infinite. -/
theorem setExt_unvalidated (geo : S57_geo) (x1 y1 x2 y2 : CDouble) :
    S57_setExt geo x1 y1 x2 y2 =
      (true, { geo with rect := ⟨x1, y1, x2, y2⟩ }, x1.isinf && x2.isinf) ∧
    S57_getExt (S57_setExt geo x1 y1 x2 y2).snd.fst = (x1, y1, x2, y2) ∧
    ((S57_setExt geo x1 y1 x2 y2).snd.snd = true ↔
      x1.isinf = true ∧ x2.isinf = true) := by
  exact ⟨rfl, rfl, by simp [S57_setExt]⟩

end S52
